import Mathlib

/-!
# u2fkey: a U2F token as a signing key, and the verification of its signatures

A shallow embedding of `tls/u2fkey/u2fkey.go` (`GenerateKey`, `LoadKey`, `Public`,
`Sign`, `Verify`) together with the properties proved about it.

Modelling conventions

* A Go `[]byte` is a `Slice`: its visible elements (`len`) and the remaining elements of
  the backing array up to the capacity (`cap`).  Slice expressions are checked against the
  capacity, index expressions against the length, as the Go run time does.
* A Go call ends in an `Outcome`: a normal return, a returned non-nil `error`, a run-time
  panic, or `running` when the model's fuel is used up while a `for` loop is still going.
* `time.Sleep` is not modelled, pointers are taken to be non-nil, and the unused
  parameters of `Sign` (`rand`, `opts`) are left out.
* The token (`u2fhid`, `u2ftoken`) is a state machine over an arbitrary state type; the
  primitives `sha256.Sum256`, `asn1.Unmarshal` and `ecdsa.Verify` are parameters
  (`Prims`).  `stdPrims` is the instance given by SHA-256, DER and ECDSA over P-256.
-/

namespace u2fkey

/-! ## Bytes, slices and outcomes -/

/-- One byte. -/
abbrev Byte := Fin 256

/-- Run-time panics of the Go run time that the code can raise. -/
inductive Panic where
  /-- The panic "slice bounds out of range". -/
  | sliceBounds
  /-- The panic "index out of range". -/
  | indexRange
deriving DecidableEq, Repr

deriving instance DecidableEq for Except

/-- Values of the Go type `error` (other than nil). -/
inductive GoError where
  /-- The sentinel `u2ftoken.ErrPresenceRequired`. -/
  | presenceRequired
  /-- The value `errors.New("no U2F tokens found")`. -/
  | noTokens
  /-- Any other error value, identified by a number. -/
  | other (code : Nat)
deriving DecidableEq, Repr

/-- How a call ends. -/
inductive Outcome (α : Type) where
  /-- Normal return with a nil error. -/
  | ok (v : α)
  /-- Return with a non-nil error. -/
  | error (e : GoError)
  /-- A run-time panic. -/
  | panic (p : Panic)
  /-- The fuel ran out while a loop was still running. -/
  | running
deriving DecidableEq, Repr

/-- Sequencing of calls: the first outcome that is not a normal return ends the run. -/
def Outcome.bind {α β : Type} (x : Outcome α) (f : α → Outcome β) : Outcome β :=
  match x with
  | .ok v => f v
  | .error e => .error e
  | .panic p => .panic p
  | .running => .running

instance : Monad Outcome where
  pure := Outcome.ok
  bind := Outcome.bind

/-- A Go byte slice: `elems` are the `len` visible elements, `spare` the elements of the
backing array between `len` and `cap`. -/
structure Slice where
  /-- The visible elements. -/
  elems : List Byte
  /-- The rest of the backing array. -/
  spare : List Byte
deriving DecidableEq, Repr

namespace Slice

/-- The Go builtin `len(s)`. -/
def len (s : Slice) : Nat := s.elems.length

/-- The Go builtin `cap(s)`. -/
def cap (s : Slice) : Nat := s.elems.length + s.spare.length

/-- A slice whose capacity is its length. -/
def ofList (l : List Byte) : Slice := ⟨l, []⟩

/-- The Go expression `make([]byte, n)`: n zero bytes. -/
def make (n : Nat) : Slice := ⟨List.replicate n 0, []⟩

/-- The slice expression `s[lo:hi]`; in range when `lo ≤ hi ≤ cap(s)`. -/
def slice (s : Slice) (lo hi : Nat) : Outcome Slice :=
  if lo ≤ hi ∧ hi ≤ s.cap then
    .ok ⟨((s.elems ++ s.spare).drop lo).take (hi - lo), (s.elems ++ s.spare).drop hi⟩
  else .panic .sliceBounds

/-- The slice expression `s[lo:]`, that is `s[lo:len(s)]`; in range when `lo ≤ len(s)`. -/
def sliceFrom (s : Slice) (lo : Nat) : Outcome Slice :=
  if lo ≤ s.len then .ok ⟨s.elems.drop lo, s.spare⟩ else .panic .sliceBounds

/-- The index expression `s[i]`; in range when `i < len(s)`. -/
def index (s : Slice) (i : Nat) : Outcome Byte :=
  match s.elems.get? i with
  | some b => .ok b
  | none => .panic .indexRange

end Slice

/-- A Go array `[32]byte`. -/
abbrev Array32 := { l : List Byte // l.length = 32 }

/-- The slice expression `a[:]` of an array of 32 bytes. -/
def Array32.toSlice (a : Array32) : Slice := Slice.ofList a.val

/-- The method `(*big.Int).SetBytes`: the bytes read as a big-endian unsigned integer. -/
def SetBytes (buf : List Byte) : Int :=
  Int.ofNat (buf.foldl (fun acc b => acc * 256 + b.val) 0)

/-! ## The collaborators: curves, keys, primitives, the token -/

/-- The struct `elliptic.CurveParams`: a curve y² = x³ - 3x + B over the field of P
elements, with base point (Gx, Gy) of order N. -/
structure CurveParams where
  /-- The order of the underlying field. -/
  P : Nat
  /-- The order of the base point. -/
  N : Nat
  /-- The constant of the curve equation. -/
  B : Nat
  /-- The x coordinate of the base point. -/
  Gx : Nat
  /-- The y coordinate of the base point. -/
  Gy : Nat
  /-- The size of the underlying field in bits. -/
  BitSize : Nat
deriving DecidableEq, Repr

/-- The curve `elliptic.P256()` (FIPS 186, section D.1.2.3). -/
def P256 : CurveParams :=
  ⟨0xffffffff00000001000000000000000000000000ffffffffffffffffffffffff,
   0xffffffff00000000ffffffffffffffffbce6faada7179e84f3b9cac2fc632551,
   0x5ac635d8aa3a93e7b3ebbd55769886bc651d06b0cc53b0f63bce3c3e27d2604b,
   0x6b17d1f2e12c4247f8bce6e563a440f277037d812deb33a0f4a13945d898c296,
   0x4fe342e2fe1a7f9b8ee7eb4a7c0f9e162bce33576b315ececbb6406837bf51f5,
   256⟩

/-- The struct `ecdsa.PublicKey`. -/
structure EcdsaPublicKey where
  /-- The curve of the key. -/
  Curve : CurveParams
  /-- The affine x coordinate. -/
  X : Int
  /-- The affine y coordinate. -/
  Y : Int
deriving DecidableEq, Repr

/-- The primitives `Verify` and `GenerateKey` call. -/
structure Prims where
  /-- The function `sha256.Sum256`. -/
  Sum256 : List Byte → Array32
  /-- The call `asn1.Unmarshal(b, &sig)` for `sig struct { R, S *big.Int }`: the two
  integers, or an error. -/
  Unmarshal : List Byte → Except GoError (Int × Int)
  /-- The function `ecdsa.Verify(pub, hash, r, s)`. -/
  EcdsaVerify : EcdsaPublicKey → List Byte → Int → Int → Bool

/-- The struct `u2ftoken.RegisterRequest`. -/
structure RegisterRequest where
  /-- The challenge parameter. -/
  Challenge : Slice
  /-- The application parameter. -/
  Application : Slice
deriving DecidableEq, Repr

/-- The struct `u2ftoken.AuthenticateRequest`. -/
structure AuthenticateRequest where
  /-- The challenge parameter. -/
  Challenge : Slice
  /-- The application parameter. -/
  Application : Slice
  /-- The key handle. -/
  KeyHandle : Slice
deriving DecidableEq, Repr

/-- The struct `u2ftoken.AuthenticateResponse`, of which the code reads `RawResponse`. -/
structure AuthenticateResponse where
  /-- The raw response bytes. -/
  RawResponse : Slice
deriving DecidableEq, Repr

/-- An enumerated device (`u2fhid.DeviceInfo`), identified by a number. -/
abbrev DeviceInfo := Nat

/-- An opened device (`u2fhid.Device`), identified by a number. -/
abbrev Device := Nat

/-- The device layer: `u2fhid.Devices`, `u2fhid.Open`, `u2ftoken.NewToken` and the two
methods of `*u2ftoken.Token`, over the token states `σ`. -/
structure World (σ : Type) where
  /-- The call `u2fhid.Devices()`. -/
  Devices : Except GoError (List DeviceInfo)
  /-- The call `u2fhid.Open(d)`. -/
  Open : DeviceInfo → Except GoError Device
  /-- The call `u2ftoken.NewToken(dev)`. -/
  NewToken : Device → σ
  /-- The method `t.Register(req)`. -/
  Register : σ → RegisterRequest → Except GoError Slice × σ
  /-- The method `t.Authenticate(req)`. -/
  Authenticate : σ → AuthenticateRequest → Except GoError AuthenticateResponse × σ

/-! ## The package u2fkey -/

/-- The struct `PublicKey`. -/
structure PublicKey where
  /-- The EC public key. -/
  EcdsaKey : EcdsaPublicKey
  /-- The application parameter. -/
  App : Slice
deriving DecidableEq, Repr

/-- The struct `U2fKey`; `token` is the state of the token it holds. -/
structure U2fKey (σ : Type) where
  /-- The public key record. -/
  pubKey : PublicKey
  /-- The key handle. -/
  KeyHandle : Slice
  /-- The token. -/
  token : σ
deriving DecidableEq, Repr

/-- The function `openFirstToken`. -/
def openFirstToken {σ : Type} (W : World σ) : Outcome σ :=
  match W.Devices with
  | .error err => .error err
  | .ok [] => .error .noTokens
  | .ok (d :: _) =>
    match W.Open d with
    | .error err => .error err
    | .ok dev => .ok (W.NewToken dev)

/-- The `for` loop of `GenerateKey` (lines 60-69): the outcome of the loop, the token
state it leaves, and the requests passed to `Register` so far. -/
def GenerateKey.loop {σ : Type} (W : World σ) (req : RegisterRequest) :
    Nat → σ → List RegisterRequest → Outcome Slice × σ × List RegisterRequest
  | 0, t, calls => (.running, t, calls)
  | fuel + 1, t, calls =>
    match W.Register t req with
    | (.error err, t1) =>
      if err = GoError.presenceRequired then GenerateKey.loop W req fuel t1 (calls ++ [req])
      else (.error err, t1, calls ++ [req])
    | (.ok res, t1) => (.ok res, t1, calls ++ [req])

/-- Lines 71-90 of `GenerateKey`: the adapter built from the response `res`. -/
def GenerateKey.build {σ : Type} (app : Array32) (res : Slice) (t : σ) :
    Outcome (U2fKey σ) := do
  let xs ← res.slice 2 34
  let x := SetBytes xs.elems
  let ys ← res.slice 34 66
  let y := SetBytes ys.elems
  let pubKey : EcdsaPublicKey := ⟨P256, x, y⟩
  let b ← res.index 66
  let khLen := b.val
  let keyHandle ← res.slice 67 (67 + khLen)
  return ⟨⟨pubKey, app.toSlice⟩, keyHandle, t⟩

/-- A run of `GenerateKey`: how it ends and the requests it passed to `Register`. -/
structure GenRun (σ : Type) where
  /-- The returned adapter, error or panic. -/
  result : Outcome (U2fKey σ)
  /-- The requests passed to `Register`, in order. -/
  calls : List RegisterRequest

/-- The function `GenerateKey`; `origin` is the byte sequence of the Go string. -/
def GenerateKey {σ : Type} (P : Prims) (W : World σ) (fuel : Nat) (origin : List Byte) :
    GenRun σ :=
  match openFirstToken W with
  | .ok t =>
    let challenge := Slice.make 32
    let app := P.Sum256 origin
    match GenerateKey.loop W ⟨challenge, app.toSlice⟩ fuel t [] with
    | (.ok res, t1, calls) => ⟨GenerateKey.build app res t1, calls⟩
    | (.error err, _, calls) => ⟨.error err, calls⟩
    | (.panic p, _, calls) => ⟨.panic p, calls⟩
    | (.running, _, calls) => ⟨.running, calls⟩
  | .error err => ⟨.error err, []⟩
  | .panic p => ⟨.panic p, []⟩
  | .running => ⟨.running, []⟩

/-- The function `LoadKey`. -/
def LoadKey {σ : Type} (P : Prims) (W : World σ) (origin : List Byte) (keyHandle : Slice)
    (pubKey : EcdsaPublicKey) : Outcome (U2fKey σ) := do
  let t ← openFirstToken W
  let app := P.Sum256 origin
  return ⟨⟨pubKey, app.toSlice⟩, keyHandle, t⟩

/-- The method `(*U2fKey).Public`. -/
def U2fKey.Public {σ : Type} (k : U2fKey σ) : PublicKey := k.pubKey

/-- The request `req` that `Sign` builds (lines 114-118). -/
def Sign.request {σ : Type} (k : U2fKey σ) (digest : Slice) : AuthenticateRequest :=
  ⟨digest, k.pubKey.App, k.KeyHandle⟩

/-- A run of `Sign`: how it ends, the requests it passed to `Authenticate`, and the
token state it leaves. -/
structure SignRun (σ : Type) where
  /-- The returned bytes, error or panic. -/
  result : Outcome Slice
  /-- The requests passed to `Authenticate`, in order. -/
  calls : List AuthenticateRequest
  /-- The token state after the run. -/
  token : σ

/-- The `for` loop of `Sign` (lines 122-131) and its `return` (line 132). -/
def Sign.loop {σ : Type} (W : World σ) (req : AuthenticateRequest) :
    Nat → σ → List AuthenticateRequest → SignRun σ
  | 0, t, calls => ⟨.running, calls, t⟩
  | fuel + 1, t, calls =>
    match W.Authenticate t req with
    | (.error err, t1) =>
      if err = GoError.presenceRequired then Sign.loop W req fuel t1 (calls ++ [req])
      else ⟨.error err, calls ++ [req], t1⟩
    | (.ok res, t1) => ⟨.ok res.RawResponse, calls ++ [req], t1⟩

/-- The method `(*U2fKey).Sign`. -/
def Sign {σ : Type} (W : World σ) (fuel : Nat) (k : U2fKey σ) (digest : Slice) : SignRun σ :=
  Sign.loop W (Sign.request k digest) fuel k.token []

/-- The bytes of `payload` in `Verify` (lines 138-141).  The builtin `append` reads and
writes visible elements only, and the capacity of `payload` is not observed. -/
def Verify.payload (pubKey : PublicKey) (digest rawAuth : Slice) : Outcome (List Byte) := do
  let payload : List Byte := []
  let payload := payload ++ pubKey.App.elems
  let head ← rawAuth.slice 0 5
  let payload := payload ++ head.elems
  let payload := payload ++ digest.elems
  return payload

/-- The function `Verify`. -/
def Verify (P : Prims) (pubKey : PublicKey) (digest rawAuth : Slice) : Outcome Bool := do
  let payload ← Verify.payload pubKey digest rawAuth
  let rest ← rawAuth.sliceFrom 5
  match P.Unmarshal rest.elems with
  | .error _ => return false
  | .ok (r, s) =>
    let u2fDigest := P.Sum256 payload
    return P.EcdsaVerify pubKey.EcdsaKey u2fDigest.val r s

/-! ## The standard primitives

The packages `crypto/sha256`, `encoding/asn1`, `crypto/elliptic` and `crypto/ecdsa` are
not part of the sources at hand; the definitions below follow the standards they
implement and are checked against published test vectors further down. -/

namespace SHA256

/-- The largest x below 2^b above the given one with x^k ≤ n, found bit by bit. -/
def rootLoop (k n : Nat) : Nat → Nat → Nat
  | 0, x => x
  | b + 1, x => rootLoop k n b (if (x + 2 ^ b) ^ k ≤ n then x + 2 ^ b else x)

/-- The first 32 bits of the fractional part of the k-th root of p (for p < 2^24). -/
def frac32 (k p : Nat) : Nat := rootLoop k (p * 2 ^ (32 * k)) 40 0 % 4294967296

/-- The first sixty-four prime numbers. -/
def primes : List Nat :=
  [2, 3, 5, 7, 11, 13, 17, 19, 23, 29, 31, 37, 41, 43, 47, 53, 59, 61, 67, 71, 73, 79, 83,
   89, 97, 101, 103, 107, 109, 113, 127, 131, 137, 139, 149, 151, 157, 163, 167, 173, 179,
   181, 191, 193, 197, 199, 211, 223, 227, 229, 233, 239, 241, 251, 257, 263, 269, 271, 277,
   281, 283, 293, 307, 311]

/-- Modelled from the spec: the round constants of SHA-256 (`crypto/sha256` is missing),
after FIPS 180-4, section 4.2.2: the first 32 bits of the fractional parts of the cube
roots of the first sixty-four primes. -/
def K : List Nat := primes.map (frac32 3)

/-- The eight working variables, also the hash value between blocks. -/
structure State where
  a : Nat
  b : Nat
  c : Nat
  d : Nat
  e : Nat
  f : Nat
  g : Nat
  h : Nat
deriving DecidableEq, Repr

/-- Modelled from the spec: the initial hash value of SHA-256 (`crypto/sha256` is
missing), after FIPS 180-4, section 5.3.3: the first 32 bits of the fractional parts of
the square roots of the first eight primes. -/
def H0 : State :=
  ⟨frac32 2 2, frac32 2 3, frac32 2 5, frac32 2 7, frac32 2 11, frac32 2 13, frac32 2 17,
   frac32 2 19⟩

/-- Reduction to a word of 32 bits. -/
def w32 (x : Nat) : Nat := x % 4294967296

/-- Rotation of a word to the right by n bits. -/
def rotr (n x : Nat) : Nat := w32 ((x >>> n) ||| (x <<< (32 - n)))

/-- The function Ch of FIPS 180-4, section 4.1.2, on words. -/
def Ch (x y z : Nat) : Nat := (x &&& y) ^^^ ((4294967295 - x) &&& z)

/-- The function Maj of FIPS 180-4, section 4.1.2. -/
def Maj (x y z : Nat) : Nat := (x &&& y) ^^^ (x &&& z) ^^^ (y &&& z)

/-- The function Σ0. -/
def bsig0 (x : Nat) : Nat := rotr 2 x ^^^ rotr 13 x ^^^ rotr 22 x

/-- The function Σ1. -/
def bsig1 (x : Nat) : Nat := rotr 6 x ^^^ rotr 11 x ^^^ rotr 25 x

/-- The function σ0. -/
def ssig0 (x : Nat) : Nat := rotr 7 x ^^^ rotr 18 x ^^^ (x >>> 3)

/-- The function σ1. -/
def ssig1 (x : Nat) : Nat := rotr 17 x ^^^ rotr 19 x ^^^ (x >>> 10)

/-- The padded message: the byte 0x80, zero bytes up to 56 modulo 64, and the length in
bits as 8 bytes, most significant first. -/
def pad (m : List Nat) : List Nat :=
  m ++ [0x80] ++ List.replicate ((119 - m.length % 64) % 64) 0
    ++ (List.range 8).map (fun i => (8 * m.length) >>> (8 * (7 - i)) % 256)

/-- The first n big-endian words of a byte sequence. -/
def words : Nat → List Nat → List Nat
  | n + 1, b0 :: b1 :: b2 :: b3 :: rest =>
    (b0 * 16777216 + b1 * 65536 + b2 * 256 + b3) :: words n rest
  | _, _ => []

/-- The message schedule grown by n words; the list holds the latest word first. -/
def extend : Nat → List Nat → List Nat
  | 0, r => r
  | n + 1, r =>
    extend n (w32 (ssig1 (r.getD 1 0) + r.getD 6 0 + ssig0 (r.getD 14 0) + r.getD 15 0) :: r)

/-- The 64 words of the message schedule of a block. -/
def schedule (block : List Nat) : List Nat :=
  (extend 48 (words 16 block).reverse).reverse

/-- One round of the compression function, on the round constant and schedule word. -/
def round (s : State) (kw : Nat × Nat) : State :=
  let t1 := s.h + bsig1 s.e + Ch s.e s.f s.g + kw.1 + kw.2
  let t2 := bsig0 s.a + Maj s.a s.b s.c
  ⟨w32 (t1 + t2), s.a, s.b, s.c, w32 (s.d + t1), s.e, s.f, s.g⟩

/-- The compression of one block into the hash value. -/
def compress (s : State) (block : List Nat) : State :=
  let t := (K.zip (schedule block)).foldl round s
  ⟨w32 (s.a + t.a), w32 (s.b + t.b), w32 (s.c + t.c), w32 (s.d + t.d),
   w32 (s.e + t.e), w32 (s.f + t.f), w32 (s.g + t.g), w32 (s.h + t.h)⟩

/-- The first n blocks of 64 bytes. -/
def blocks : Nat → List Nat → List (List Nat)
  | 0, _ => []
  | n + 1, l => l.take 64 :: blocks n (l.drop 64)

/-- The hash value of a message. -/
def hash (m : List Nat) : State :=
  (blocks ((pad m).length / 64) (pad m)).foldl compress H0

/-- A word as 4 bytes, most significant first. -/
def be32 (x : Nat) : List Byte :=
  [Fin.ofNat (x >>> 24), Fin.ofNat (x >>> 16), Fin.ofNat (x >>> 8), Fin.ofNat x]

/-- Modelled from the spec: `sha256.Sum256` (`crypto/sha256` is missing), the SHA-256
digest of FIPS 180-4. -/
def Sum256 (m : List Byte) : Array32 :=
  let s := hash (m.map Fin.val)
  ⟨be32 s.a ++ be32 s.b ++ be32 s.c ++ be32 s.d ++ be32 s.e ++ be32 s.f ++ be32 s.g
    ++ be32 s.h, by simp [be32]⟩

end SHA256

namespace ASN1

/-- The value of a big-endian byte sequence. -/
def beNat (l : List Byte) : Nat := l.foldl (fun acc b => acc * 256 + b.val) 0

/-- The identifier and length octets at the front of `b`: the identifier octet, the
length, and what follows.  Fails on a multi-byte tag, an indefinite length, a length of
more than four octets, one with a leading zero, or a long form below 128. -/
def header : List Byte → Option (Nat × Nat × List Byte)
  | t :: l :: rest =>
    if t.val % 32 = 31 then none
    else if l.val < 128 then some (t.val, l.val, rest)
    else
      let nb := l.val - 128
      let lb := rest.take nb
      if nb = 0 ∨ 4 < nb ∨ lb.length < nb ∨ lb.head? = some 0 ∨ 2147483648 ≤ beNat lb
          ∨ beNat lb < 128 then none
      else some (t.val, beNat lb, rest.drop nb)
  | _ => none

/-- One element with identifier octet `tag` at the front of `b`: its content and what
follows it. -/
def element (tag : Nat) (b : List Byte) : Option (List Byte × List Byte) :=
  match header b with
  | some (t, n, rest) =>
    if t = tag ∧ n ≤ rest.length then some (rest.take n, rest.drop n) else none
  | none => none

/-- The content octets of an INTEGER as a number (two's complement); fails when empty or
not minimally encoded. -/
def integer : List Byte → Option Int
  | [] => none
  | [b] => some (if b.val < 128 then (b.val : Int) else (b.val : Int) - 256)
  | b0 :: b1 :: rest =>
    if (b0.val = 0 ∧ b1.val < 128) ∨ (b0.val = 255 ∧ 128 ≤ b1.val) then none
    else if b0.val < 128 then some (beNat (b0 :: b1 :: rest) : Int)
    else some ((beNat (b0 :: b1 :: rest) : Int) - (256 ^ (rest.length + 2) : Nat))

/-- Modelled from the spec: `asn1.Unmarshal(b, &sig)` for `sig struct { R, S *big.Int }`
(`encoding/asn1` is missing): a DER SEQUENCE (identifier 0x30) that starts with two
INTEGER elements (identifier 0x02).  Bytes after the sequence are the rest that
`Unmarshal` returns and `Verify` drops. -/
def Unmarshal (b : List Byte) : Except GoError (Int × Int) :=
  match element 0x30 b with
  | none => .error (.other 1)
  | some (inner, _) =>
    match element 0x02 inner with
    | none => .error (.other 1)
    | some (rb, inner1) =>
      match element 0x02 inner1 with
      | none => .error (.other 1)
      | some (sb, _) =>
        match integer rb, integer sb with
        | some r, some s => .ok (r, s)
        | _, _ => .error (.other 1)

end ASN1

namespace EC

/-- The extended Euclidean algorithm on (m, a): the coefficients are kept modulo m, with
s0 * a = r0 and s1 * a = r1 modulo m throughout. -/
def euclid (m : Nat) : Nat → Nat → Nat → Nat → Nat → Nat
  | 0, _, _, s0, _ => s0
  | fuel + 1, r0, r1, s0, s1 =>
    if r1 = 0 then s0
    else euclid m fuel r1 (r0 % r1) s1 ((s0 + (m - (r0 / r1) * s1 % m)) % m)

/-- The inverse of a modulo m (for a prime to m). -/
def invMod (m a : Nat) : Nat := euclid m m m (a % m) 0 1

/-- Whether (x, y) satisfies y² = x³ - 3x + B modulo P, with both coordinates below P
(`IsOnCurve`). -/
def IsOnCurve (c : CurveParams) (x y : Int) : Bool :=
  decide (0 ≤ x ∧ x < c.P ∧ 0 ≤ y ∧ y < c.P ∧
    (y * y) % c.P = (x * x * x - 3 * x + c.B) % c.P)

/-- Jacobian coordinates: (x, y, z) with z ≠ 0 stands for the affine point
(x / z², y / z³), and z = 0 for the point at infinity. -/
structure Jacobian where
  x : Nat
  y : Nat
  z : Nat
deriving DecidableEq, Repr

/-- The z coordinate for an affine point; the pair (0, 0) stands for infinity. -/
def zForAffine (x y : Nat) : Nat := if x = 0 ∧ y = 0 then 0 else 1

/-- The affine point of Jacobian coordinates; (0, 0) for the point at infinity. -/
def affineFromJacobian (p : Nat) (a : Jacobian) : Nat × Nat :=
  if a.z = 0 then (0, 0)
  else
    let zinv := invMod p a.z
    let zinvsq := zinv * zinv % p
    (a.x * zinvsq % p, a.y * (zinvsq * zinv % p) % p)

/-- The double of a point, for a curve with a = -3 (formulas dbl-2001-b). -/
def doubleJacobian (p : Nat) (a : Jacobian) : Jacobian :=
  let delta := a.z * a.z % p
  let gamma := a.y * a.y % p
  let alpha := 3 * (a.x + (p - delta)) * (a.x + delta) % p
  let beta := a.x * gamma % p
  let x3 := (alpha * alpha + 8 * (p - beta)) % p
  let z3 := ((a.y + a.z) * (a.y + a.z) + (p - gamma) + (p - delta)) % p
  let y3 := (alpha * (4 * beta + (p - x3)) + 8 * (p - gamma * gamma % p)) % p
  ⟨x3, y3, z3⟩

/-- The sum of two points (formulas add-2007-bl). -/
def addJacobian (p : Nat) (a b : Jacobian) : Jacobian :=
  if a.z = 0 then b
  else if b.z = 0 then a
  else
    let z1z1 := a.z * a.z % p
    let z2z2 := b.z * b.z % p
    let u1 := a.x * z2z2 % p
    let u2 := b.x * z1z1 % p
    let h := (u2 + (p - u1)) % p
    let i := 4 * h * h % p
    let j := h * i % p
    let s1 := a.y * b.z % p * z2z2 % p
    let s2 := b.y * a.z % p * z1z1 % p
    let r := (s2 + (p - s1)) % p
    if h = 0 ∧ r = 0 then doubleJacobian p a
    else
      let r2 := 2 * r
      let v := u1 * i % p
      let x3 := (r2 * r2 + (p - j) + 2 * (p - v)) % p
      let y3 := (r2 * (v + (p - x3)) + 2 * (p - s1 * j % p)) % p
      let z3 := ((a.z + b.z) * (a.z + b.z) + (p - z1z1) + (p - z2z2)) % p * h % p
      ⟨x3, y3, z3⟩

/-- The bits of k, least significant first. -/
def bits : Nat → Nat → List Bool
  | 0, _ => []
  | fuel + 1, k => if k = 0 then [] else decide (k % 2 = 1) :: bits fuel (k / 2)

/-- The sum of two affine points (`Add`). -/
def Add (c : CurveParams) (a b : Nat × Nat) : Nat × Nat :=
  affineFromJacobian c.P
    (addJacobian c.P ⟨a.1, a.2, zForAffine a.1 a.2⟩ ⟨b.1, b.2, zForAffine b.1 b.2⟩)

/-- The multiple k * (Bx, By) of an affine point (`ScalarMult`): double and add over the
bits of k, most significant first. -/
def ScalarMult (c : CurveParams) (b : Nat × Nat) (k : Nat) : Nat × Nat :=
  affineFromJacobian c.P
    ((bits k k).foldr (fun bit acc =>
      if bit then addJacobian c.P ⟨b.1, b.2, 1⟩ (doubleJacobian c.P acc)
      else doubleJacobian c.P acc) ⟨0, 0, 0⟩)

/-- The multiple k * G of the base point (`ScalarBaseMult`). -/
def ScalarBaseMult (c : CurveParams) (k : Nat) : Nat × Nat := ScalarMult c (c.Gx, c.Gy) k

end EC

namespace ECDSA

/-- The number of bits of n (`(*big.Int).BitLen`). -/
def bitLen : Nat → Nat → Nat
  | 0, _ => 0
  | fuel + 1, n => if n = 0 then 0 else bitLen fuel (n / 2) + 1

/-- The function `hashToInt` of `crypto/ecdsa`: the leftmost bits of the hash, as many
as the order of the base point has. -/
def hashToInt (hash : List Byte) (c : CurveParams) : Nat :=
  let orderBits := bitLen c.N c.N
  let orderBytes := (orderBits + 7) / 8
  let hash := if orderBytes < hash.length then hash.take orderBytes else hash
  ASN1.beNat hash >>> (hash.length * 8 - orderBits)

/-- Modelled from the spec: `ecdsa.Verify` (`crypto/ecdsa` and `crypto/elliptic` are
missing), ECDSA signature verification after FIPS 186-4, section 6.4, over the curve of
the key, with the curve arithmetic of `elliptic.CurveParams`. -/
def Verify (pub : EcdsaPublicKey) (hash : List Byte) (r s : Int) : Bool :=
  let c := pub.Curve
  if r ≤ 0 ∨ s ≤ 0 then false
  else if (c.N : Int) ≤ r ∨ (c.N : Int) ≤ s then false
  else
    let e := hashToInt hash c
    let w := EC.invMod c.N s.toNat
    let u1 := e * w % c.N
    let u2 := r.toNat * w % c.N
    let xy := EC.Add c (EC.ScalarBaseMult c u1)
      (EC.ScalarMult c ((pub.X % c.P).toNat, (pub.Y % c.P).toNat) u2)
    if xy.1 = 0 ∧ xy.2 = 0 then false
    else decide (((xy.1 % c.N : Nat) : Int) = r)

end ECDSA

/-- The primitives of the Go standard library: SHA-256, DER, ECDSA. -/
def stdPrims : Prims := ⟨SHA256.Sum256, ASN1.Unmarshal, ECDSA.Verify⟩

/-! ## Concrete inputs -/

/-- The bytes of the string "example.com". -/
def exampleOrigin : List Byte :=
  [0x65, 0x78, 0x61, 0x6d, 0x70, 0x6c, 0x65, 0x2e, 0x63, 0x6f, 0x6d]

/-- The application parameter of "example.com" (its SHA-256 digest). -/
def exampleApp : List Byte :=
  [0xa3, 0x79, 0xa6, 0xf6, 0xee, 0xaf, 0xb9, 0xa5, 0x5e, 0x37, 0x8c, 0x11, 0x80, 0x34, 0xe2, 0x75,
   0x1e, 0x68, 0x2f, 0xab, 0x9f, 0x2d, 0x30, 0xab, 0x13, 0xd2, 0x12, 0x55, 0x86, 0xce, 0x19, 0x47]

/-- The digest of the tests: SHA-256 of "Hello, World!". -/
def helloDigest : List Byte :=
  [0xdf, 0xfd, 0x60, 0x21, 0xbb, 0x2b, 0xd5, 0xb0, 0xaf, 0x67, 0x62, 0x90, 0x80, 0x9e, 0xc3, 0xa5,
   0x31, 0x91, 0xdd, 0x81, 0xc7, 0xf7, 0x0a, 0x4b, 0x28, 0x68, 0x8a, 0x36, 0x21, 0x82, 0x98, 0x6f]

/-- The bad digest of the tests: SHA-256 of "Goodbye, World!". -/
def goodbyeDigest : List Byte :=
  [0xfb, 0x62, 0xf0, 0x2a, 0xcd, 0xa7, 0xd7, 0x41, 0x77, 0xa7, 0x01, 0xa1, 0xce, 0x00, 0x6e, 0x6b,
   0xac, 0xd9, 0x0c, 0x7d, 0x4d, 0x7a, 0xb4, 0x81, 0x69, 0x2c, 0x1d, 0xa4, 0x7c, 0x81, 0x07, 0x6b]

/-- A public key record for "example.com" whose point lies on P-256. -/
def twinKey : PublicKey :=
  ⟨⟨P256, 0x4507a88b57e9e258904088fb40e66f71d21b483c674ebab90bf27d608919a5e4,
    0xfeabd65fc368202c8ee15b64fa4758e6f7442b254ed8fafd4283384c3d0e159d⟩,
   Slice.ofList exampleApp⟩

/-- An authentication response: user presence 1, counter 42, and the DER encoding of
r = 0xb8ed2ae3...fd34340c, s = 0x043a7187...52beaf89. -/
def twinRawAuth : Slice := Slice.ofList
  [0x01, 0x00, 0x00, 0x00, 0x2a, 0x30, 0x45, 0x02, 0x21, 0x00, 0xb8, 0xed, 0x2a, 0xe3, 0xfa, 0xd6,
   0x1e, 0x5f, 0x2f, 0xa4, 0xf4, 0x3c, 0x20, 0x59, 0xa1, 0xed, 0x56, 0x24, 0x2d, 0x1e, 0xa0, 0xd4,
   0x9f, 0x53, 0xdc, 0x73, 0x6a, 0xa7, 0xfd, 0x34, 0x34, 0x0c, 0x02, 0x20, 0x04, 0x3a, 0x71, 0x87,
   0x74, 0xc5, 0x72, 0xbd, 0x8a, 0x25, 0xad, 0xbe, 0xb1, 0xbf, 0xcd, 0x5c, 0x02, 0x56, 0xae, 0x11,
   0xce, 0xcf, 0x9f, 0x9c, 0x3f, 0x92, 0x5d, 0x0e, 0x52, 0xbe, 0xaf, 0x89]

/-- The public key of the test vector of RFC 6979, appendix A.2.5 (P-256). -/
def rfcKey : EcdsaPublicKey :=
  ⟨P256, 0x60fed4ba255a9d31c961eb74c6356d68c049b8923b61fa6ce669622e60f29fb6,
   0x7903fe1008b8bc99a41ae9e95628bc64f2f1b20c2d7e9f5177a3c294d4462299⟩

/-- The bytes of the string "sample". -/
def rfcSample : List Byte := [0x73, 0x61, 0x6d, 0x70, 0x6c, 0x65]

/-- The bytes of the string "test". -/
def rfcTest : List Byte := [0x74, 0x65, 0x73, 0x74]

/-- A registration response that stops inside the key handle: the length byte at
offset 66 announces 4 bytes, 2 follow. -/
def truncatedResponse : Slice := Slice.ofList
  ([0x05, 0x04] ++ List.replicate 64 0x11 ++ [0x04, 0xaa, 0xbb])

/-- The same 69 bytes in a buffer of capacity 71. -/
def truncatedResponseInBuffer : Slice :=
  ⟨[0x05, 0x04] ++ List.replicate 64 0x11 ++ [0x04, 0xaa, 0xbb], [0xcc, 0xdd]⟩

/-- A registration response of 10 bytes. -/
def shortResponse : Slice := Slice.ofList (List.replicate 10 0x05)

/-- A registration response with X = 1, Y = 1 and the key handle aa bb, followed by
three more bytes. -/
def offCurveResponse : Slice := Slice.ofList
  ([0x05, 0x04] ++ (List.replicate 31 0x00 ++ [0x01]) ++ (List.replicate 31 0x00 ++ [0x01])
    ++ [0x02, 0xaa, 0xbb] ++ [0x30, 0x82, 0x01])

/-- A response like `offCurveResponse` with other bytes at offsets 0 and 1 and after the
key handle. -/
def offCurveVariant : Slice := Slice.ofList
  ([0x00, 0x00] ++ (List.replicate 31 0x00 ++ [0x01]) ++ (List.replicate 31 0x00 ++ [0x01])
    ++ [0x02, 0xaa, 0xbb] ++ [0x77])

/-- A token that asks for user presence on its first n calls and then answers every
`Register` with `reg` and every `Authenticate` with `auth`; its state counts the calls. -/
def scriptWorld (n : Nat) (reg : Except GoError Slice)
    (auth : Except GoError AuthenticateResponse) : World Nat :=
  ⟨.ok [0], fun _ => .ok 0, fun _ => 0,
   fun t _ => (if t < n then .error .presenceRequired else reg, t + 1),
   fun t _ => (if t < n then .error .presenceRequired else auth, t + 1)⟩

/-! ## Notions used to state the properties -/

/-- The value of a byte sequence read as a big-endian unsigned integer: the first byte
is the most significant. -/
def bigEndian : List Byte → Nat
  | [] => 0
  | b :: bs => b.val * 256 ^ bs.length + bigEndian bs

/-- The bytes at the offsets lo, ..., hi - 1 of a response. -/
def bytesAt (res : Slice) (lo hi : Nat) : List Byte := (res.elems.drop lo).take (hi - lo)

/-- The token state after i calls of `Register` with `req`. -/
def registerState {σ : Type} (W : World σ) (req : RegisterRequest) : Nat → σ → σ
  | 0, t => t
  | i + 1, t => registerState W req i (W.Register t req).2

/-- The token state after i calls of `Authenticate` with `req`. -/
def authenticateState {σ : Type} (W : World σ) (req : AuthenticateRequest) : Nat → σ → σ
  | 0, t => t
  | i + 1, t => authenticateState W req i (W.Authenticate t req).2

/-- What `Sign` returns for the answer of `Authenticate` that ends its loop. -/
def Sign.returned : Except GoError AuthenticateResponse → Outcome Slice
  | .ok res => .ok res.RawResponse
  | .error err => .error err

/-- What `GenerateKey` returns for the answer of `Register` that ends its loop, taken
in the token state t. -/
def GenerateKey.returned {σ : Type} (app : Array32) (t : σ) :
    Except GoError Slice → Outcome (U2fKey σ)
  | .ok res => GenerateKey.build app res t
  | .error err => .error err

/-- Modelled from the spec: the token behind `u2fhid` and `u2ftoken`, which are not part
of the sources at hand, as a device that registers keys and signs with them.  `keyOf t h a`
is the public key that the token in state t holds for the key handle h and the
application parameter a.
* A successful `Register` answers with a response of at least 67 + L bytes (L the byte
  at offset 66) and from then on holds the P-256 key whose X and Y are the bytes 2..33
  and 34..65, for the key handle at the bytes 67..66+L and the application parameter of
  the request.
* `Authenticate` forgets no key.
* A successful `Authenticate` for a key that the token holds, with a challenge and an
  application parameter of 32 bytes, answers with a 5-byte presence and counter block
  followed by a DER ECDSA signature (R, S) that is valid for the held key on
  SHA256(application ++ block ++ challenge). -/
structure TokenContract {σ : Type} (P : Prims) (W : World σ)
    (keyOf : σ → List Byte → List Byte → Option EcdsaPublicKey) : Prop where
  /-- What a successful `Register` does. -/
  register_ok : ∀ (t t1 : σ) (req : RegisterRequest) (res : Slice),
    W.Register t req = (.ok res, t1) →
      ∃ L : Byte, res.index 66 = .ok L ∧ 67 + L.val ≤ res.len
        ∧ keyOf t1 (bytesAt res 67 (67 + L.val)) req.Application.elems
            = some ⟨P256, SetBytes (bytesAt res 2 34), SetBytes (bytesAt res 34 66)⟩
  /-- The keys stay. -/
  authenticate_keeps : ∀ (t t1 : σ) (req : AuthenticateRequest)
    (r : Except GoError AuthenticateResponse) (h a : List Byte) (q : EcdsaPublicKey),
    W.Authenticate t req = (r, t1) → keyOf t h a = some q → keyOf t1 h a = some q
  /-- What a successful `Authenticate` answers. -/
  authenticate_ok : ∀ (t t1 : σ) (req : AuthenticateRequest) (res : AuthenticateResponse)
    (q : EcdsaPublicKey),
    W.Authenticate t req = (.ok res, t1) →
    keyOf t req.KeyHandle.elems req.Application.elems = some q →
    req.Challenge.len = 32 → req.Application.len = 32 →
      5 ≤ res.RawResponse.len
        ∧ ∃ R S, P.Unmarshal (res.RawResponse.elems.drop 5) = .ok (R, S)
          ∧ P.EcdsaVerify q
              (P.Sum256 (req.Application.elems ++ res.RawResponse.elems.take 5
                ++ req.Challenge.elems)).val R S = true

/-- A toy digest: the first 32 bytes of the message, padded with zero bytes. -/
def toyHash (m : List Byte) : Array32 :=
  ⟨(m ++ List.replicate 32 0).take 32, by simp⟩

/-- A toy signature scheme: the digest is `toyHash`, the signature of a hash under the key
(X, Y) is the pair (X, value of the hash), written as the byte X followed by the hash. -/
def toyPrims : Prims :=
  ⟨toyHash,
   fun b => match b with
     | [] => .error (.other 1)
     | x :: rest => .ok ((x.val : Int), SetBytes rest),
   fun pub hash r s => decide (r = pub.X ∧ s = SetBytes hash)⟩

/-- The answer of the toy token to a request: presence 1, counter 0, then the signature
under the key with X = 1. -/
def toySignature (req : AuthenticateRequest) : Slice :=
  Slice.ofList ([0x01, 0x00, 0x00, 0x00, 0x00] ++ ([0x01]
    ++ (toyHash (req.Application.elems ++ [0x01, 0x00, 0x00, 0x00, 0x00]
          ++ req.Challenge.elems)).val))

/-- A token for `toyPrims` that holds the key with X = 1 under the key handle aa bb for
every application parameter: `Register` answers with `offCurveResponse`, `Authenticate`
asks for presence in every odd state and else signs. -/
def toyWorld : World Nat :=
  ⟨.ok [0], fun _ => .ok 0, fun _ => 0,
   fun t _ => (.ok offCurveResponse, t + 1),
   fun t req =>
     (if t % 2 = 1 then .error .presenceRequired else .ok ⟨toySignature req⟩, t + 1)⟩

/-- The keys that `toyWorld` holds. -/
def toyKeyOf : Nat → List Byte → List Byte → Option EcdsaPublicKey :=
  fun _ h _ => if h = [0xaa, 0xbb] then some ⟨P256, 1, 1⟩ else none

/-! ## Slices -/

theorem Slice.slice_of_le_len (s : Slice) (lo hi : Nat) (h1 : lo ≤ hi) (h2 : hi ≤ s.len) :
    s.slice lo hi
      = .ok ⟨(s.elems.drop lo).take (hi - lo), (s.elems ++ s.spare).drop hi⟩ := by
  unfold Slice.len at h2
  have hcap : hi ≤ s.cap := by unfold Slice.cap; omega
  have hlo : lo ≤ s.elems.length := le_trans h1 h2
  have htake : ((s.elems ++ s.spare).drop lo).take (hi - lo)
      = (s.elems.drop lo).take (hi - lo) := by
    rw [List.drop_append_of_le_length hlo]
    exact List.take_append_of_le_length (by rw [List.length_drop]; omega)
  simp only [Slice.slice, h1, hcap, and_self, if_true, htake]

theorem Slice.slice_panics (s : Slice) (lo hi : Nat) (h : s.cap < hi) :
    s.slice lo hi = .panic .sliceBounds := by
  have : ¬ (lo ≤ hi ∧ hi ≤ s.cap) := by omega
  simp only [Slice.slice, this, if_false]

theorem Slice.sliceFrom_of_le_len (s : Slice) (lo : Nat) (h : lo ≤ s.len) :
    s.sliceFrom lo = .ok ⟨s.elems.drop lo, s.spare⟩ := by
  simp only [Slice.sliceFrom, h, if_true]

theorem Slice.sliceFrom_panics (s : Slice) (lo : Nat) (h : s.len < lo) :
    s.sliceFrom lo = .panic .sliceBounds := by
  have : ¬ lo ≤ s.len := by omega
  simp only [Slice.sliceFrom, this, if_false]

theorem Outcome.bind_ok {α β : Type} (v : α) (f : α → Outcome β) :
    (Outcome.ok v >>= f) = f v := rfl

theorem Outcome.bind_panic {α β : Type} (p : Panic) (f : α → Outcome β) :
    (Outcome.panic p >>= f) = Outcome.panic p := rfl

theorem Outcome.pure_eq {α : Type} (v : α) : (pure v : Outcome α) = Outcome.ok v := rfl

/-! ## Verify -/

theorem Verify.payload_of_le_len (pubKey : PublicKey) (digest rawAuth : Slice)
    (hlen : 5 ≤ rawAuth.len) :
    Verify.payload pubKey digest rawAuth
      = .ok (pubKey.App.elems ++ rawAuth.elems.take 5 ++ digest.elems) := by
  simp [Verify.payload, Slice.slice_of_le_len rawAuth 0 5 (by omega) hlen,
    Outcome.bind_ok, Outcome.pure_eq]

theorem Verify_of_le_len (P : Prims) (pubKey : PublicKey) (digest rawAuth : Slice)
    (hlen : 5 ≤ rawAuth.len) :
    Verify P pubKey digest rawAuth =
      match P.Unmarshal (rawAuth.elems.drop 5) with
      | .error _ => .ok false
      | .ok (r, s) =>
        .ok (P.EcdsaVerify pubKey.EcdsaKey
          (P.Sum256 (pubKey.App.elems ++ rawAuth.elems.take 5 ++ digest.elems)).val r s) := by
  simp only [Verify, Verify.payload_of_le_len pubKey digest rawAuth hlen,
    Slice.sliceFrom_of_le_len rawAuth 5 hlen, Outcome.bind_ok]
  cases P.Unmarshal (rawAuth.elems.drop 5) <;> rfl

theorem Verify_of_short (P : Prims) (pubKey : PublicKey) (digest rawAuth : Slice)
    (hlen : rawAuth.len < 5) :
    Verify P pubKey digest rawAuth = .panic .sliceBounds := by
  unfold Verify Verify.payload
  by_cases hcap : 5 ≤ rawAuth.cap
  · have h1 : rawAuth.slice 0 5 = .ok ⟨((rawAuth.elems ++ rawAuth.spare).drop 0).take (5 - 0),
        (rawAuth.elems ++ rawAuth.spare).drop 5⟩ := by
      simp only [Slice.slice, hcap, Nat.zero_le, and_self, if_true]
    simp only [h1, Slice.sliceFrom_panics rawAuth 5 hlen, Outcome.bind_ok, Outcome.pure_eq,
      Outcome.bind_panic]
  · simp only [Slice.slice_panics rawAuth 0 5 (by omega), Outcome.bind_ok, Outcome.bind_panic]

theorem Verify_of_bad_der (P : Prims) (pubKey : PublicKey) (digest rawAuth : Slice)
    (err : GoError) (hlen : 5 ≤ rawAuth.len)
    (hder : P.Unmarshal (rawAuth.elems.drop 5) = .error err) :
    Verify P pubKey digest rawAuth = .ok false := by
  rw [Verify_of_le_len P pubKey digest rawAuth hlen, hder]

/-- C1: for a response of at least 5 bytes whose bytes from offset 5 decode to (R, S),
`Verify` returns the verdict of ECDSA on (R, S), the key `pub.EcdsaKey` and the SHA-256
digest of `pub.App ++ rawAuth[0:5] ++ digest`; so it returns true if and only if that
verification succeeds. -/
theorem Verify_eq_ecdsa_on_transcript (P : Prims) (pub : PublicKey) (digest rawAuth : Slice)
    (R S : Int) (hlen : 5 ≤ rawAuth.len)
    (hder : P.Unmarshal (rawAuth.elems.drop 5) = .ok (R, S)) :
    Verify P pub digest rawAuth
        = .ok (P.EcdsaVerify pub.EcdsaKey
            (P.Sum256 (pub.App.elems ++ rawAuth.elems.take 5 ++ digest.elems)).val R S)
      ∧ (Verify P pub digest rawAuth = .ok true ↔
          P.EcdsaVerify pub.EcdsaKey
            (P.Sum256 (pub.App.elems ++ rawAuth.elems.take 5 ++ digest.elems)).val R S
              = true) := by
  have h : Verify P pub digest rawAuth
      = .ok (P.EcdsaVerify pub.EcdsaKey
          (P.Sum256 (pub.App.elems ++ rawAuth.elems.take 5 ++ digest.elems)).val R S) := by
    rw [Verify_of_le_len P pub digest rawAuth hlen, hder]
  refine ⟨h, ?_⟩
  rw [h]
  constructor
  · intro hv
    injection hv
  · intro hv
    rw [hv]

/-- The theorem `Verify_eq_ecdsa_on_transcript` at the response `twinRawAuth`. -/
theorem Verify_eq_ecdsa_on_transcript_witness :
    5 ≤ twinRawAuth.len
      ∧ stdPrims.Unmarshal (twinRawAuth.elems.drop 5)
          = .ok (0xb8ed2ae3fad61e5f2fa4f43c2059a1ed56242d1ea0d49f53dc736aa7fd34340c,
                 0x043a718774c572bd8a25adbeb1bfcd5c0256ae11cecf9f9c3f925d0e52beaf89)
      ∧ (Verify stdPrims twinKey (Slice.ofList helloDigest) twinRawAuth = .ok true ↔
          stdPrims.EcdsaVerify twinKey.EcdsaKey
            (stdPrims.Sum256 (twinKey.App.elems ++ twinRawAuth.elems.take 5
              ++ (Slice.ofList helloDigest).elems)).val
            0xb8ed2ae3fad61e5f2fa4f43c2059a1ed56242d1ea0d49f53dc736aa7fd34340c
            0x043a718774c572bd8a25adbeb1bfcd5c0256ae11cecf9f9c3f925d0e52beaf89 = true) :=
  ⟨by decide, by decide!,
   (Verify_eq_ecdsa_on_transcript stdPrims twinKey (Slice.ofList helloDigest) twinRawAuth _ _
      (by decide) (by decide!)).2⟩

/-- C3: on an empty `rawAuth` the code does not return false: the slice expression
`rawAuth[0:5]` panics, whatever the key and the digest. -/
theorem Verify_empty_rawAuth_panics (P : Prims) (pub : PublicKey) (digest : Slice) :
    Verify P pub digest (Slice.ofList []) = .panic .sliceBounds :=
  Verify_of_short P pub digest (Slice.ofList []) (by decide)

/-- C10: for application parameters and digests of 32 bytes and responses of at least 5
bytes, the payloads `Verify` hashes have 69 bytes and are equal only if the application
parameters, the first five response bytes and the digests are equal. -/
theorem Verify_payload_unambiguous (pub pub' : PublicKey) (d d' rawAuth rawAuth' : Slice)
    (hA : pub.App.len = 32) (hA' : pub'.App.len = 32) (hd : d.len = 32) (hd' : d'.len = 32)
    (hr : 5 ≤ rawAuth.len) (hr' : 5 ≤ rawAuth'.len) :
    ∃ p p', Verify.payload pub d rawAuth = .ok p ∧ Verify.payload pub' d' rawAuth' = .ok p'
      ∧ p = pub.App.elems ++ rawAuth.elems.take 5 ++ d.elems
      ∧ p' = pub'.App.elems ++ rawAuth'.elems.take 5 ++ d'.elems
      ∧ p.length = 69 ∧ p'.length = 69
      ∧ (p = p' → pub.App.elems = pub'.App.elems
            ∧ rawAuth.elems.take 5 = rawAuth'.elems.take 5 ∧ d.elems = d'.elems) := by
  unfold Slice.len at hA hA' hd hd' hr hr'
  refine ⟨_, _, Verify.payload_of_le_len pub d rawAuth hr,
    Verify.payload_of_le_len pub' d' rawAuth' hr', rfl, rfl, ?_, ?_, ?_⟩
  · simp only [List.length_append, List.length_take]; omega
  · simp only [List.length_append, List.length_take]; omega
  · intro h
    have h5 : (rawAuth.elems.take 5).length = (rawAuth'.elems.take 5).length := by
      simp only [List.length_take]; omega
    rw [List.append_assoc, List.append_assoc] at h
    have h1 := List.append_inj h (by rw [hA, hA'])
    have h2 := List.append_inj h1.2 h5
    exact ⟨h1.1, h2.1, h2.2⟩

/-- The theorem `Verify_payload_unambiguous` at the key `twinKey` and the two digests of
the tests. -/
theorem Verify_payload_unambiguous_witness :
    ∃ p p', Verify.payload twinKey (Slice.ofList helloDigest) twinRawAuth = .ok p
      ∧ Verify.payload twinKey (Slice.ofList goodbyeDigest) twinRawAuth = .ok p'
      ∧ p = twinKey.App.elems ++ twinRawAuth.elems.take 5 ++ (Slice.ofList helloDigest).elems
      ∧ p' = twinKey.App.elems ++ twinRawAuth.elems.take 5
              ++ (Slice.ofList goodbyeDigest).elems
      ∧ p.length = 69 ∧ p'.length = 69
      ∧ (p = p' → twinKey.App.elems = twinKey.App.elems
            ∧ twinRawAuth.elems.take 5 = twinRawAuth.elems.take 5
            ∧ (Slice.ofList helloDigest).elems = (Slice.ofList goodbyeDigest).elems) :=
  Verify_payload_unambiguous twinKey twinKey (Slice.ofList helloDigest)
    (Slice.ofList goodbyeDigest) twinRawAuth twinRawAuth (by decide) (by decide) (by decide)
    (by decide) (by decide) (by decide)

/-! ## Test vectors of the primitives -/

theorem SHA256.K_head : SHA256.K.take 4 = [0x428a2f98, 0x71374491, 0xb5c0fbcf, 0xe9b5dba5]
    ∧ SHA256.K.getLast? = some 0xc67178f2 ∧ SHA256.H0.a = 0x6a09e667 := by
  decide!

/-- The digest of "abc" (FIPS 180-4 example). -/
theorem SHA256.Sum256_abc : (SHA256.Sum256 [0x61, 0x62, 0x63]).val =
    [0xba, 0x78, 0x16, 0xbf, 0x8f, 0x01, 0xcf, 0xea, 0x41, 0x41, 0x40, 0xde, 0x5d, 0xae,
     0x22, 0x23, 0xb0, 0x03, 0x61, 0xa3, 0x96, 0x17, 0x7a, 0x9c, 0xb4, 0x10, 0xff, 0x61,
     0xf2, 0x00, 0x15, 0xad] := by
  decide!

/-- The application parameter and the two digests of the tests are SHA-256 digests. -/
theorem SHA256.Sum256_examples :
    (SHA256.Sum256 exampleOrigin).val = exampleApp
      ∧ (SHA256.Sum256 [0x48, 0x65, 0x6c, 0x6c, 0x6f, 0x2c, 0x20, 0x57, 0x6f, 0x72, 0x6c,
          0x64, 0x21]).val = helloDigest
      ∧ (SHA256.Sum256 [0x47, 0x6f, 0x6f, 0x64, 0x62, 0x79, 0x65, 0x2c, 0x20, 0x57, 0x6f,
          0x72, 0x6c, 0x64, 0x21]).val = goodbyeDigest := by
  decide!

/-- The base point of P-256 lies on the curve, its double (computed by `ScalarBaseMult`
and by `Add`) is the known point 2G, and its multiple by the order N is the point at
infinity. -/
theorem EC.P256_base_point :
    EC.IsOnCurve P256 P256.Gx P256.Gy = true
      ∧ EC.ScalarBaseMult P256 2
          = (0x7cf27b188d034f7e8a52380304b51ac3c08969e277f21b35a60b48fc47669978,
             0x07775510db8ed040293d9ac69f7430dbba7dade63ce982299e04b79d227873d1)
      ∧ EC.Add P256 (P256.Gx, P256.Gy) (P256.Gx, P256.Gy) = EC.ScalarBaseMult P256 2
      ∧ EC.IsOnCurve P256 (EC.ScalarBaseMult P256 2).1 (EC.ScalarBaseMult P256 2).2 = true
      ∧ EC.ScalarBaseMult P256 P256.N = (0, 0) := by
  decide!

/-! ## GenerateKey -/

theorem SetBytes_eq_bigEndian (buf : List Byte) : SetBytes buf = (bigEndian buf : Int) := by
  have h : ∀ (l : List Byte) (acc : Nat),
      l.foldl (fun acc b => acc * 256 + b.val) acc = acc * 256 ^ l.length + bigEndian l := by
    intro l
    induction l with
    | nil => intro acc; simp [bigEndian]
    | cons b bs ih =>
      intro acc
      simp only [List.foldl_cons, ih, bigEndian, List.length_cons, pow_succ]
      ring
  unfold SetBytes
  rw [h buf 0]
  simp

theorem GenerateKey.build_of_le_len {σ : Type} (app : Array32) (res : Slice) (t : σ)
    (L : Byte) (h66 : res.elems.get? 66 = some L) (hlen : 67 + L.val ≤ res.len) :
    GenerateKey.build app res t
      = .ok ⟨⟨⟨P256, SetBytes ((res.elems.drop 2).take 32),
                SetBytes ((res.elems.drop 34).take 32)⟩, app.toSlice⟩,
             ⟨(res.elems.drop 67).take L.val, (res.elems ++ res.spare).drop (67 + L.val)⟩,
             t⟩ := by
  have hidx : res.index 66 = .ok L := by simp only [Slice.index, h66]
  have hk := Slice.slice_of_le_len res 67 (67 + L.val) (by omega) hlen
  rw [Nat.add_sub_cancel_left] at hk
  simp only [GenerateKey.build, Slice.slice_of_le_len res 2 34 (by omega) (by omega),
    Slice.slice_of_le_len res 34 66 (by omega) (by omega), hidx, hk, Outcome.bind_ok,
    Outcome.pure_eq]

theorem GenerateKey.build_of_len_le_66 {σ : Type} (app : Array32) (res : Slice) (t : σ)
    (hlen : res.len ≤ 66) : ∃ p, GenerateKey.build app res t = .panic p := by
  have hidx : res.index 66 = .panic .indexRange := by
    have : res.elems.get? 66 = none := List.get?_eq_none.mpr hlen
    simp only [Slice.index, this]
  unfold GenerateKey.build
  cases h1 : res.slice 2 34 with
  | ok xs =>
    cases h2 : res.slice 34 66 with
    | ok ys => exact ⟨.indexRange, by simp only [hidx, Outcome.bind_ok, Outcome.bind_panic]⟩
    | error e => simp [Slice.slice] at h2; split at h2 <;> simp at h2
    | panic p => exact ⟨p, by simp only [Outcome.bind_ok, Outcome.bind_panic]⟩
    | running => simp [Slice.slice] at h2; split at h2 <;> simp at h2
  | error e => simp [Slice.slice] at h1; split at h1 <;> simp at h1
  | panic p => exact ⟨p, by simp only [Outcome.bind_panic]⟩
  | running => simp [Slice.slice] at h1; split at h1 <;> simp at h1

theorem GenerateKey.build_of_cap_lt {σ : Type} (app : Array32) (res : Slice) (t : σ)
    (L : Byte) (h66 : res.elems.get? 66 = some L) (hcap : res.cap < 67 + L.val) :
    GenerateKey.build app res t = .panic .sliceBounds := by
  have hidx : res.index 66 = .ok L := by simp only [Slice.index, h66]
  have h67 : 66 < res.elems.length := by
    by_contra hc
    rw [List.get?_eq_none.mpr (by omega)] at h66
    exact Option.noConfusion h66
  simp only [GenerateKey.build,
    Slice.slice_of_le_len res 2 34 (by omega) (by unfold Slice.len; omega),
    Slice.slice_of_le_len res 34 66 (by omega) (by unfold Slice.len; omega), hidx,
    Slice.slice_panics res 67 (67 + L.val) hcap, Outcome.bind_ok, Outcome.bind_panic]

theorem GenerateKey.loop_calls_register {σ : Type} (W : World σ) (req : RegisterRequest) (fuel : Nat) :
    ∀ (t : σ) (calls : List RegisterRequest),
      ∃ n, (GenerateKey.loop W req fuel t calls).2.2 = calls ++ List.replicate n req := by
  induction fuel with
  | zero => intro t calls; exact ⟨0, by simp [GenerateKey.loop]⟩
  | succ fuel ih =>
    intro t calls
    rcases h : W.Register t req with ⟨x, t1⟩
    cases x with
    | ok res => exact ⟨1, by simp [GenerateKey.loop, h]⟩
    | error err =>
      by_cases he : err = GoError.presenceRequired
      · obtain ⟨n, hn⟩ := ih t1 (calls ++ [req])
        refine ⟨n + 1, ?_⟩
        simp only [GenerateKey.loop, h, he, if_true, hn, List.append_assoc]
        rw [List.replicate_succ]; rfl
      · exact ⟨1, by simp [GenerateKey.loop, h, he]⟩

theorem GenerateKey.loop_ok {σ : Type} (W : World σ) (req : RegisterRequest) (fuel : Nat) :
    ∀ (t : σ) (calls : List RegisterRequest) (res : Slice) (t1 : σ)
      (calls1 : List RegisterRequest),
      GenerateKey.loop W req fuel t calls = (.ok res, t1, calls1) →
        ∃ t0, W.Register t0 req = (.ok res, t1) := by
  induction fuel with
  | zero => intro t calls res t1 calls1 h; simp [GenerateKey.loop] at h
  | succ fuel ih =>
    intro t calls res t1 calls1 h
    rcases hr : W.Register t req with ⟨x, t2⟩
    cases x with
    | ok res2 =>
      simp only [GenerateKey.loop, hr, Prod.mk.injEq, Outcome.ok.injEq] at h
      exact ⟨t, by rw [hr, h.1, h.2.1]⟩
    | error err =>
      by_cases he : err = GoError.presenceRequired
      · simp only [GenerateKey.loop, hr, he, if_true] at h
        exact ih t2 _ res t1 calls1 h
      · simp [GenerateKey.loop, hr, he] at h

theorem GenerateKey_of_loop {σ : Type} (P : Prims) (W : World σ) (fuel : Nat)
    (origin : List Byte) (t0 t1 : σ) (x : Outcome Slice) (calls : List RegisterRequest)
    (hopen : openFirstToken W = .ok t0)
    (hloop : GenerateKey.loop W ⟨Slice.make 32, (P.Sum256 origin).toSlice⟩ fuel t0 []
      = (x, t1, calls)) :
    GenerateKey P W fuel origin
      = ⟨x >>= fun res => GenerateKey.build (P.Sum256 origin) res t1, calls⟩ := by
  unfold GenerateKey
  simp only [hopen, hloop]
  cases x <;> rfl

theorem Outcome.bind_eq_ok {α β : Type} (x : Outcome α) (f : α → Outcome β) (w : β)
    (h : (x >>= f) = Outcome.ok w) : ∃ v, x = Outcome.ok v ∧ f v = Outcome.ok w := by
  cases x with
  | ok v => exact ⟨v, rfl, h⟩
  | error e => exact absurd h (by intro h; cases h)
  | panic p => exact absurd h (by intro h; cases h)
  | running => exact absurd h (by intro h; cases h)

theorem GenerateKey.build_token {σ : Type} (app : Array32) (res : Slice) (t : σ)
    (k : U2fKey σ) (h : GenerateKey.build app res t = .ok k) : k.token = t := by
  unfold GenerateKey.build at h
  obtain ⟨xs, -, h⟩ := Outcome.bind_eq_ok _ _ _ h
  obtain ⟨ys, -, h⟩ := Outcome.bind_eq_ok _ _ _ h
  obtain ⟨b, -, h⟩ := Outcome.bind_eq_ok _ _ _ h
  obtain ⟨kh, -, h⟩ := Outcome.bind_eq_ok _ _ _ h
  simp only [Outcome.pure_eq, Outcome.ok.injEq] at h
  rw [← h]

theorem GenerateKey_inv {σ : Type} (P : Prims) (W : World σ) (fuel : Nat)
    (origin : List Byte) (k : U2fKey σ)
    (hgen : (GenerateKey P W fuel origin).result = .ok k) :
    ∃ t0 res calls, openFirstToken W = .ok t0
      ∧ GenerateKey.loop W ⟨Slice.make 32, (P.Sum256 origin).toSlice⟩ fuel t0 []
          = (.ok res, k.token, calls)
      ∧ GenerateKey.build (P.Sum256 origin) res k.token = .ok k := by
  cases hopen : openFirstToken W with
  | ok t0 =>
    rcases hloop : GenerateKey.loop W ⟨Slice.make 32, (P.Sum256 origin).toSlice⟩ fuel t0 []
      with ⟨x, t1, calls⟩
    rw [GenerateKey_of_loop P W fuel origin t0 t1 x calls hopen hloop] at hgen
    obtain ⟨res, hx, hb⟩ := Outcome.bind_eq_ok _ _ _ hgen
    have htok := GenerateKey.build_token _ _ _ _ hb
    subst hx
    subst htok
    exact ⟨t0, res, calls, rfl, hloop, hb⟩
  | error e => simp [GenerateKey, hopen] at hgen
  | panic p => simp [GenerateKey, hopen] at hgen
  | running => simp [GenerateKey, hopen] at hgen

theorem scriptWorld_open (n : Nat) (reg : Except GoError Slice)
    (auth : Except GoError AuthenticateResponse) :
    openFirstToken (scriptWorld n reg auth) = .ok 0 := rfl

theorem scriptWorld_loop (reg : Slice) (auth : Except GoError AuthenticateResponse)
    (req : RegisterRequest) (fuel : Nat) :
    GenerateKey.loop (scriptWorld 0 (.ok reg) auth) req (fuel + 1) 0 [] = (.ok reg, 1, [req]) :=
  rfl

theorem GenerateKey_scriptWorld (P : Prims) (reg : Slice)
    (auth : Except GoError AuthenticateResponse) (fuel : Nat) (origin : List Byte) :
    GenerateKey P (scriptWorld 0 (.ok reg) auth) (fuel + 1) origin
      = ⟨GenerateKey.build (P.Sum256 origin) reg 1,
         [⟨Slice.make 32, (P.Sum256 origin).toSlice⟩]⟩ := by
  rw [GenerateKey_of_loop P _ (fuel + 1) origin 0 1 (.ok reg) _ (scriptWorld_open 0 _ auth)
    (scriptWorld_loop reg auth _ fuel)]
  rfl

/-- C4: on a registration response that the token returns successfully and that is
shorter than 67 + L bytes the code does not fail with a decode error: with the length
byte 4 and two bytes after it the slice expression `res[67:71]` panics, and on a response
of 10 bytes `res[2:34]` panics, for every origin. -/
theorem GenerateKey_truncated_response_panics (P : Prims)
    (auth : Except GoError AuthenticateResponse) (fuel : Nat) (origin : List Byte) :
    truncatedResponse.len = 69 ∧ truncatedResponse.index 66 = .ok 4
      ∧ (GenerateKey P (scriptWorld 0 (.ok truncatedResponse) auth) (fuel + 1) origin).result
          = .panic .sliceBounds
      ∧ shortResponse.len = 10
      ∧ (GenerateKey P (scriptWorld 0 (.ok shortResponse) auth) (fuel + 1) origin).result
          = .panic .sliceBounds := by
  refine ⟨by decide, by decide, ?_, by decide, ?_⟩
  · rw [GenerateKey_scriptWorld]
    exact GenerateKey.build_of_cap_lt _ truncatedResponse 1 4 (by decide) (by decide)
  · rw [GenerateKey_scriptWorld]
    simp only [GenerateKey.build, Slice.slice_panics shortResponse 2 34 (by decide),
      Outcome.bind_panic]

/-- When the buffer of a truncated response has room after its length, `GenerateKey`
returns a key handle that runs past the response. -/
theorem GenerateKey_truncated_response_in_buffer (P : Prims)
    (auth : Except GoError AuthenticateResponse) (fuel : Nat) (origin : List Byte) :
    truncatedResponseInBuffer.len = 69 ∧
    ∃ k, (GenerateKey P (scriptWorld 0 (.ok truncatedResponseInBuffer) auth) (fuel + 1)
        origin).result = .ok k ∧ k.KeyHandle.elems = [0xaa, 0xbb, 0xcc, 0xdd] := by
  refine ⟨by decide, ?_⟩
  rw [GenerateKey_scriptWorld]
  simp only [GenerateKey.build]
  have h1 : truncatedResponseInBuffer.slice 2 34 = .ok ⟨List.replicate 32 0x11,
      List.replicate 32 0x11 ++ [0x04, 0xaa, 0xbb, 0xcc, 0xdd]⟩ := by decide
  have h2 : truncatedResponseInBuffer.slice 34 66 = .ok ⟨List.replicate 32 0x11,
      [0x04, 0xaa, 0xbb, 0xcc, 0xdd]⟩ := by decide
  have h3 : truncatedResponseInBuffer.index 66 = .ok 4 := by decide
  have h4 : truncatedResponseInBuffer.slice 67 (67 + (4 : Byte).val)
      = .ok ⟨[0xaa, 0xbb, 0xcc, 0xdd], []⟩ := by decide
  simp only [h1, h2, h3, h4, Outcome.bind_ok, Outcome.pure_eq]
  exact ⟨_, rfl, rfl⟩

theorem List.take_one_drop (l : List Byte) (n : Nat) :
    (l.drop n).take 1 = (l.get? n).toList := by
  induction l generalizing n with
  | nil => simp
  | cons a l ih =>
    cases n with
    | zero => simp
    | succ n => simpa using ih n

theorem List.take_drop_of_window (l : List Byte) (a n m w : Nat) (h : m + n ≤ w) :
    ((l.drop a).take w |>.drop m).take n = (l.drop (a + m)).take n := by
  rw [List.drop_take, List.drop_drop, List.take_take]
  congr 1
  omega

theorem GenerateKey.build_congr {σ σ' : Type} (app : Array32) (res res' : Slice) (t : σ)
    (t' : σ') (L : Byte) (h66 : res.elems.get? 66 = some L) (hlen : 67 + L.val ≤ res.len)
    (hagree : (res'.elems.drop 2).take (65 + L.val) = (res.elems.drop 2).take (65 + L.val)) :
    ∃ k k', GenerateKey.build app res t = .ok k ∧ GenerateKey.build app res' t' = .ok k'
      ∧ k'.pubKey = k.pubKey ∧ k'.KeyHandle.elems = k.KeyHandle.elems := by
  unfold Slice.len at hlen
  have hlen' : 67 + L.val ≤ res'.len := by
    have h := congrArg List.length hagree
    simp only [List.length_take, List.length_drop] at h
    unfold Slice.len
    omega
  have hw : ∀ m n, m + n ≤ 65 + L.val →
      (res'.elems.drop (2 + m)).take n = (res.elems.drop (2 + m)).take n := by
    intro m n hmn
    rw [← List.take_drop_of_window res'.elems 2 n m _ hmn,
      ← List.take_drop_of_window res.elems 2 n m _ hmn, hagree]
  have h66' : res'.elems.get? 66 = some L := by
    have h1 := hw 64 1 (by omega)
    have h2 : ∀ l : List Byte, (l.drop 66).take 1 = (l.get? 66).toList :=
      fun l => List.take_one_drop l 66
    rw [h2, h2, h66] at h1
    cases h : res'.elems.get? 66 with
    | none => rw [h] at h1; simp at h1
    | some b => rw [h] at h1; simp at h1; rw [h1]
  refine ⟨_, _, GenerateKey.build_of_le_len app res t L h66 hlen,
    GenerateKey.build_of_le_len app res' t' L h66' hlen', ?_, ?_⟩
  · have hx := hw 0 32 (by omega)
    have hy := hw 32 32 (by omega)
    simp only [Nat.add_zero, Nat.reduceAdd] at hx hy
    simp only [hx, hy]
  · have hk := hw 65 L.val (by omega)
    simp only [Nat.reduceAdd] at hk
    exact hk

theorem Slice.index_eq_ok (s : Slice) (i : Nat) (b : Byte) (h : s.index i = .ok b) :
    s.elems.get? i = some b := by
  unfold Slice.index at h
  cases hg : s.elems.get? i with
  | none => rw [hg] at h; cases h
  | some c => rw [hg] at h; injection h with h; rw [h]

theorem GenerateKey_of_le_len {σ : Type} (P : Prims) (W : World σ) (fuel : Nat)
    (origin : List Byte) (t0 t1 : σ) (res : Slice) (calls : List RegisterRequest) (L : Byte)
    (hopen : openFirstToken W = .ok t0)
    (hloop : GenerateKey.loop W ⟨Slice.make 32, (P.Sum256 origin).toSlice⟩ fuel t0 []
      = (.ok res, t1, calls))
    (h66 : res.index 66 = .ok L) (hlen : 67 + L.val ≤ res.len) :
    (GenerateKey P W fuel origin).result
      = .ok ⟨⟨⟨P256, SetBytes (bytesAt res 2 34), SetBytes (bytesAt res 34 66)⟩,
               (P.Sum256 origin).toSlice⟩,
             ⟨bytesAt res 67 (67 + L.val), (res.elems ++ res.spare).drop (67 + L.val)⟩,
             t1⟩ := by
  rw [GenerateKey_of_loop P W fuel origin t0 t1 _ calls hopen hloop]
  simp only [bytesAt, Nat.add_sub_cancel_left]
  exact GenerateKey.build_of_le_len (P.Sum256 origin) res t1 L
    (Slice.index_eq_ok res 66 L h66) hlen

/-- C6: when the register loop ends with a response `res` of at least 67 + L bytes, L
being the byte at offset 66, `GenerateKey` returns an adapter on the curve P-256 whose X
and Y are the big-endian values of the bytes 2..33 and 34..65, whose key handle is the L
bytes from offset 67, and whose application parameter is the 32 bytes of SHA256(origin);
a run whose response has the same bytes at the offsets 2..66+L returns the same public
key and key handle bytes. -/
theorem GenerateKey_registration_layout {σ : Type} (P : Prims) (W : World σ) (fuel : Nat)
    (origin : List Byte) (t0 t1 : σ) (res : Slice) (calls : List RegisterRequest) (L : Byte)
    (hopen : openFirstToken W = .ok t0)
    (hloop : GenerateKey.loop W ⟨Slice.make 32, (P.Sum256 origin).toSlice⟩ fuel t0 []
      = (.ok res, t1, calls))
    (h66 : res.index 66 = .ok L) (hlen : 67 + L.val ≤ res.len) :
    ∃ k, (GenerateKey P W fuel origin).result = .ok k
      ∧ k.pubKey.EcdsaKey.Curve = P256
      ∧ k.pubKey.EcdsaKey.X = (bigEndian (bytesAt res 2 34) : Int)
      ∧ k.pubKey.EcdsaKey.Y = (bigEndian (bytesAt res 34 66) : Int)
      ∧ k.KeyHandle.elems = bytesAt res 67 (67 + L.val)
      ∧ k.KeyHandle.len = L.val
      ∧ k.pubKey.App.elems = (P.Sum256 origin).val
      ∧ k.pubKey.App.len = 32
      ∧ ∀ {σ' : Type} (W' : World σ') (fuel' : Nat) (t0' t1' : σ') (res' : Slice)
          (calls' : List RegisterRequest),
          openFirstToken W' = .ok t0' →
          GenerateKey.loop W' ⟨Slice.make 32, (P.Sum256 origin).toSlice⟩ fuel' t0' []
            = (.ok res', t1', calls') →
          bytesAt res' 2 (67 + L.val) = bytesAt res 2 (67 + L.val) →
          ∃ k', (GenerateKey P W' fuel' origin).result = .ok k'
            ∧ k'.pubKey = k.pubKey ∧ k'.KeyHandle.elems = k.KeyHandle.elems := by
  have h66' := Slice.index_eq_ok res 66 L h66
  have hg := GenerateKey_of_le_len P W fuel origin t0 t1 res calls L hopen hloop h66 hlen
  refine ⟨_, hg, rfl, SetBytes_eq_bigEndian _, SetBytes_eq_bigEndian _, rfl, ?_, rfl,
    (P.Sum256 origin).property, ?_⟩
  · unfold Slice.len at hlen ⊢
    simp only [bytesAt, List.length_take, List.length_drop]
    omega
  · intro σ' W' fuel' t0' t1' res' calls' hopen' hloop' hagree
    have hagree' : (res'.elems.drop 2).take (65 + L.val)
        = (res.elems.drop 2).take (65 + L.val) := by
      have e : 67 + L.val - 2 = 65 + L.val := by omega
      simpa only [bytesAt, e] using hagree
    obtain ⟨k1, k2, hk1, hk2, hp, hh⟩ := GenerateKey.build_congr (P.Sum256 origin) res res'
      t1 t1' L h66' hlen hagree'
    have hb := GenerateKey.build_of_le_len (P.Sum256 origin) res t1 L h66' hlen
    rw [hb] at hk1
    injection hk1 with hk1
    subst hk1
    refine ⟨k2, ?_, hp, ?_⟩
    · rw [GenerateKey_of_loop P W' fuel' origin t0' t1' _ calls' hopen' hloop']
      exact hk2
    · rw [hh]
      simp only [bytesAt, Nat.add_sub_cancel_left]

/-- The theorem `GenerateKey_registration_layout` at a token that answers `Register`
with `offCurveResponse`, compared with one that answers with `offCurveVariant`. -/
theorem GenerateKey_registration_layout_witness :
    offCurveResponse.index 66 = .ok 2 ∧ 67 + 2 ≤ offCurveResponse.len
      ∧ ∃ k, (GenerateKey stdPrims (scriptWorld 0 (.ok offCurveResponse) (.error .noTokens)) 1
            exampleOrigin).result = .ok k
          ∧ k.pubKey.EcdsaKey.X = (bigEndian (bytesAt offCurveResponse 2 34) : Int)
          ∧ k.KeyHandle.elems = [0xaa, 0xbb]
          ∧ ∃ k', (GenerateKey stdPrims (scriptWorld 0 (.ok offCurveVariant) (.error .noTokens))
                1 exampleOrigin).result = .ok k'
              ∧ k'.pubKey = k.pubKey ∧ k'.KeyHandle.elems = k.KeyHandle.elems := by
  obtain ⟨k, h1, -, h3, -, h5, -, -, -, h9⟩ :=
    GenerateKey_registration_layout stdPrims
      (scriptWorld 0 (.ok offCurveResponse) (.error .noTokens)) 1 exampleOrigin 0 1
      offCurveResponse _ 2 (scriptWorld_open _ _ _) (scriptWorld_loop _ _ _ 0) (by decide)
      (by decide)
  exact ⟨by decide, by decide, k, h1, h3, h5,
    h9 (scriptWorld 0 (.ok offCurveVariant) (.error .noTokens)) 1 0 1 offCurveVariant _
      (scriptWorld_open _ _ _) (scriptWorld_loop _ _ _ 0) (by decide)⟩

/-- C9 (as stated, refuted): for the response `offCurveResponse`, whose point (1, 1) is
not on P-256, `GenerateKey` returns a key adapter with that point and no error. -/
theorem GenerateKey_accepts_off_curve_point :
    67 + 2 ≤ offCurveResponse.len ∧ offCurveResponse.index 66 = .ok 2
      ∧ EC.IsOnCurve P256 (bigEndian (bytesAt offCurveResponse 2 34))
          (bigEndian (bytesAt offCurveResponse 34 66)) = false
      ∧ (GenerateKey stdPrims (scriptWorld 0 (.ok offCurveResponse) (.error .noTokens)) 1
            exampleOrigin).result
          = .ok ⟨⟨⟨P256, 1, 1⟩, Slice.ofList exampleApp⟩,
              ⟨[0xaa, 0xbb], [0x30, 0x82, 0x01]⟩, 1⟩ := by
  decide!

/-- C9 (amended): `GenerateKey` makes no curve check.  When the register loop ends with a
response of at least 67 + L bytes whose point (X, Y) is not on P-256, `GenerateKey`
returns a key adapter that holds (X, Y), and no error. -/
theorem GenerateKey_keeps_off_curve_point {σ : Type} (P : Prims) (W : World σ) (fuel : Nat)
    (origin : List Byte) (t0 t1 : σ) (res : Slice) (calls : List RegisterRequest) (L : Byte)
    (hopen : openFirstToken W = .ok t0)
    (hloop : GenerateKey.loop W ⟨Slice.make 32, (P.Sum256 origin).toSlice⟩ fuel t0 []
      = (.ok res, t1, calls))
    (h66 : res.index 66 = .ok L) (hlen : 67 + L.val ≤ res.len)
    (hoff : EC.IsOnCurve P256 (bigEndian (bytesAt res 2 34)) (bigEndian (bytesAt res 34 66))
      = false) :
    (∃ k, (GenerateKey P W fuel origin).result = .ok k
      ∧ k.pubKey.EcdsaKey
          = ⟨P256, bigEndian (bytesAt res 2 34), bigEndian (bytesAt res 34 66)⟩
      ∧ EC.IsOnCurve k.pubKey.EcdsaKey.Curve k.pubKey.EcdsaKey.X k.pubKey.EcdsaKey.Y = false)
      ∧ ∀ err, (GenerateKey P W fuel origin).result ≠ .error err := by
  have hg := GenerateKey_of_le_len P W fuel origin t0 t1 res calls L hopen hloop h66 hlen
  refine ⟨⟨_, hg, ?_, ?_⟩, ?_⟩
  · simp only [SetBytes_eq_bigEndian]
  · simp only [SetBytes_eq_bigEndian]
    exact hoff
  · intro err h
    rw [hg] at h
    cases h

/-- The theorem `GenerateKey_keeps_off_curve_point` at a token that answers `Register`
with `offCurveResponse`. -/
theorem GenerateKey_keeps_off_curve_point_witness :
    offCurveResponse.index 66 = .ok 2 ∧ 67 + 2 ≤ offCurveResponse.len
      ∧ EC.IsOnCurve P256 (bigEndian (bytesAt offCurveResponse 2 34))
          (bigEndian (bytesAt offCurveResponse 34 66)) = false
      ∧ ∃ k, (GenerateKey stdPrims (scriptWorld 0 (.ok offCurveResponse) (.error .noTokens)) 1
            exampleOrigin).result = .ok k
          ∧ k.pubKey.EcdsaKey = ⟨P256, bigEndian (bytesAt offCurveResponse 2 34),
              bigEndian (bytesAt offCurveResponse 34 66)⟩
          ∧ EC.IsOnCurve k.pubKey.EcdsaKey.Curve k.pubKey.EcdsaKey.X k.pubKey.EcdsaKey.Y
              = false :=
  ⟨by decide, by decide, by decide!,
   (GenerateKey_keeps_off_curve_point stdPrims
      (scriptWorld 0 (.ok offCurveResponse) (.error .noTokens)) 1 exampleOrigin 0 1
      offCurveResponse _ 2 (scriptWorld_open _ _ _) (scriptWorld_loop _ _ _ 0) (by decide)
      (by decide) (by decide!)).1⟩

/-! ## The presence loops -/

theorem Sign.loop_retry {σ : Type} (W : World σ) (req : AuthenticateRequest)
    (r : Except GoError AuthenticateResponse) (hr : r ≠ .error .presenceRequired) :
    ∀ (N fuel : Nat) (t : σ) (calls : List AuthenticateRequest), N < fuel →
      (∀ i, i < N →
        (W.Authenticate (authenticateState W req i t) req).1 = .error .presenceRequired) →
      (W.Authenticate (authenticateState W req N t) req).1 = r →
      Sign.loop W req fuel t calls
        = ⟨Sign.returned r, calls ++ List.replicate (N + 1) req,
           authenticateState W req (N + 1) t⟩ := by
  intro N
  induction N with
  | zero =>
    intro fuel t calls hf _ hN
    obtain ⟨f, rfl⟩ : ∃ f, fuel = f + 1 := ⟨fuel - 1, by omega⟩
    rcases h : W.Authenticate t req with ⟨x, t1⟩
    simp only [authenticateState, h] at hN
    subst hN
    cases x with
    | ok res => simp [Sign.loop, h, Sign.returned, authenticateState]
    | error err =>
      have he : err ≠ GoError.presenceRequired := fun e => hr (by rw [e])
      simp [Sign.loop, h, he, Sign.returned, authenticateState]
  | succ N ih =>
    intro fuel t calls hf hpre hN
    obtain ⟨f, rfl⟩ : ∃ f, fuel = f + 1 := ⟨fuel - 1, by omega⟩
    rcases h : W.Authenticate t req with ⟨x, t1⟩
    have h0 := hpre 0 (by omega)
    simp only [authenticateState, h] at h0
    subst h0
    have hstep : ∀ i, authenticateState W req (i + 1) t = authenticateState W req i t1 := by
      intro i
      simp only [authenticateState, h]
    have := ih f t1 (calls ++ [req]) (by omega)
      (fun i hi => by rw [← hstep]; exact hpre (i + 1) (by omega))
      (by rw [← hstep]; exact hN)
    simp only [Sign.loop, h, if_true, this, hstep, List.append_assoc]
    rw [List.replicate_succ (n := N + 1)]
    rfl

theorem GenerateKey.loop_retry_register {σ : Type} (W : World σ) (req : RegisterRequest)
    (r : Except GoError Slice) (hr : r ≠ .error .presenceRequired) :
    ∀ (N fuel : Nat) (t : σ) (calls : List RegisterRequest), N < fuel →
      (∀ i, i < N →
        (W.Register (registerState W req i t) req).1 = .error .presenceRequired) →
      (W.Register (registerState W req N t) req).1 = r →
      GenerateKey.loop W req fuel t calls
        = (match r with
           | .ok res => Outcome.ok res
           | .error err => Outcome.error err,
           registerState W req (N + 1) t, calls ++ List.replicate (N + 1) req) := by
  intro N
  induction N with
  | zero =>
    intro fuel t calls hf _ hN
    obtain ⟨f, rfl⟩ : ∃ f, fuel = f + 1 := ⟨fuel - 1, by omega⟩
    rcases h : W.Register t req with ⟨x, t1⟩
    simp only [registerState, h] at hN
    subst hN
    cases x with
    | ok res => simp [GenerateKey.loop, h, registerState]
    | error err =>
      have he : err ≠ GoError.presenceRequired := fun e => hr (by rw [e])
      simp [GenerateKey.loop, h, he, registerState]
  | succ N ih =>
    intro fuel t calls hf hpre hN
    obtain ⟨f, rfl⟩ : ∃ f, fuel = f + 1 := ⟨fuel - 1, by omega⟩
    rcases h : W.Register t req with ⟨x, t1⟩
    have h0 := hpre 0 (by omega)
    simp only [registerState, h] at h0
    subst h0
    have hstep : ∀ i, registerState W req (i + 1) t = registerState W req i t1 := by
      intro i
      simp only [registerState, h]
    have := ih f t1 (calls ++ [req]) (by omega)
      (fun i hi => by rw [← hstep]; exact hpre (i + 1) (by omega))
      (by rw [← hstep]; exact hN)
    simp only [GenerateKey.loop, h, if_true, this, hstep, List.append_assoc]
    rw [List.replicate_succ (n := N + 1)]
    rfl

/-- C5: when the first N answers of the token to the request are the presence-required
error and the next answer r is a success or another error, then with fuel for more than N
iterations `Sign` calls `Authenticate` exactly N + 1 times, each time with the request
{Challenge = digest, Application = the adapter's application parameter, KeyHandle = the
adapter's key handle}, and returns the raw response of r unchanged, or the error of r
unchanged.  The register loop of `GenerateKey` does the same with `Register` and the
request {Challenge = 32 zero bytes, Application = SHA256(origin)}: N + 1 calls, then the
error of r unchanged, or the adapter built from the response of r. -/
theorem presence_loop_retries :
    (∀ {σ : Type} (W : World σ) (k : U2fKey σ) (digest : Slice) (N fuel : Nat)
        (r : Except GoError AuthenticateResponse),
        N < fuel →
        (∀ i, i < N →
          (W.Authenticate (authenticateState W ⟨digest, k.pubKey.App, k.KeyHandle⟩ i k.token)
            ⟨digest, k.pubKey.App, k.KeyHandle⟩).1 = .error .presenceRequired) →
        (W.Authenticate (authenticateState W ⟨digest, k.pubKey.App, k.KeyHandle⟩ N k.token)
            ⟨digest, k.pubKey.App, k.KeyHandle⟩).1 = r →
        r ≠ .error .presenceRequired →
        Sign W fuel k digest
          = ⟨Sign.returned r, List.replicate (N + 1) ⟨digest, k.pubKey.App, k.KeyHandle⟩,
             authenticateState W ⟨digest, k.pubKey.App, k.KeyHandle⟩ (N + 1) k.token⟩)
    ∧ (∀ {σ : Type} (P : Prims) (W : World σ) (origin : List Byte) (t0 : σ) (N fuel : Nat)
        (r : Except GoError Slice),
        openFirstToken W = .ok t0 →
        N < fuel →
        (∀ i, i < N →
          (W.Register (registerState W ⟨Slice.make 32, (P.Sum256 origin).toSlice⟩ i t0)
            ⟨Slice.make 32, (P.Sum256 origin).toSlice⟩).1 = .error .presenceRequired) →
        (W.Register (registerState W ⟨Slice.make 32, (P.Sum256 origin).toSlice⟩ N t0)
            ⟨Slice.make 32, (P.Sum256 origin).toSlice⟩).1 = r →
        r ≠ .error .presenceRequired →
        GenerateKey P W fuel origin
          = ⟨GenerateKey.returned (P.Sum256 origin)
               (registerState W ⟨Slice.make 32, (P.Sum256 origin).toSlice⟩ (N + 1) t0) r,
             List.replicate (N + 1) ⟨Slice.make 32, (P.Sum256 origin).toSlice⟩⟩) := by
  constructor
  · intro σ W k digest N fuel r hf hpre hN hr
    have := Sign.loop_retry W ⟨digest, k.pubKey.App, k.KeyHandle⟩ r hr N fuel k.token []
      hf hpre hN
    simpa only [Sign, Sign.request, List.nil_append] using this
  · intro σ P W origin t0 N fuel r hopen hf hpre hN hr
    have := GenerateKey.loop_retry_register W ⟨Slice.make 32, (P.Sum256 origin).toSlice⟩ r hr N fuel
      t0 [] hf hpre hN
    rw [GenerateKey_of_loop P W fuel origin t0 _ _ _ hopen this]
    cases r <;> simp only [List.nil_append, GenerateKey.returned] <;> rfl

/-- The theorem `presence_loop_retries` at a token that asks for presence twice: `Sign`
makes three calls and returns the response bytes, and `GenerateKey` makes three calls and
passes the error 7 on. -/
theorem presence_loop_retries_witness :
    Sign (scriptWorld 2 (.error .noTokens) (.ok ⟨twinRawAuth⟩)) 3
        ⟨twinKey, Slice.ofList [0xaa, 0xbb], 0⟩ (Slice.ofList helloDigest)
      = ⟨.ok twinRawAuth,
         List.replicate 3 ⟨Slice.ofList helloDigest, twinKey.App, Slice.ofList [0xaa, 0xbb]⟩,
         3⟩
    ∧ GenerateKey stdPrims (scriptWorld 2 (.error (.other 7)) (.error .noTokens)) 3
        exampleOrigin
      = ⟨.error (.other 7),
         List.replicate 3 ⟨Slice.make 32, (stdPrims.Sum256 exampleOrigin).toSlice⟩⟩ :=
  ⟨presence_loop_retries.1 (scriptWorld 2 (.error .noTokens) (.ok ⟨twinRawAuth⟩))
      ⟨twinKey, Slice.ofList [0xaa, 0xbb], 0⟩ (Slice.ofList helloDigest) 2 3 _ (by decide)
      (fun i hi => by
        have : i = 0 ∨ i = 1 := by omega
        rcases this with rfl | rfl <;> rfl)
      rfl (by decide),
   presence_loop_retries.2 stdPrims (scriptWorld 2 (.error (.other 7)) (.error .noTokens))
      exampleOrigin 0 2 3 _ rfl (by decide)
      (fun i hi => by
        have : i = 0 ∨ i = 1 := by omega
        rcases this with rfl | rfl <;> rfl)
      rfl (by decide)⟩

/-! ## LoadKey and Sign -/

theorem Sign.loop_calls {σ : Type} (W : World σ) (req : AuthenticateRequest) (fuel : Nat) :
    ∀ (t : σ) (calls : List AuthenticateRequest),
      ∃ n, (Sign.loop W req fuel t calls).calls = calls ++ List.replicate n req := by
  induction fuel with
  | zero => intro t calls; exact ⟨0, by simp [Sign.loop]⟩
  | succ fuel ih =>
    intro t calls
    rcases h : W.Authenticate t req with ⟨x, t1⟩
    cases x with
    | ok res => exact ⟨1, by simp [Sign.loop, h]⟩
    | error err =>
      by_cases he : err = GoError.presenceRequired
      · obtain ⟨n, hn⟩ := ih t1 (calls ++ [req])
        refine ⟨n + 1, ?_⟩
        simp only [Sign.loop, h, he, if_true, hn, List.append_assoc]
        rw [List.replicate_succ]; rfl
      · exact ⟨1, by simp [Sign.loop, h, he]⟩

theorem Sign_calls {σ : Type} (W : World σ) (fuel : Nat) (k : U2fKey σ) (digest : Slice) :
    ∀ c ∈ (Sign W fuel k digest).calls, c = Sign.request k digest := by
  obtain ⟨n, hn⟩ := Sign.loop_calls W (Sign.request k digest) fuel k.token []
  intro c hc
  unfold Sign at hc
  rw [hn, List.nil_append] at hc
  exact List.eq_of_mem_replicate hc

theorem LoadKey_eq {σ : Type} (P : Prims) (W : World σ) (origin : List Byte)
    (keyHandle : Slice) (pubKey : EcdsaPublicKey) (k : U2fKey σ)
    (h : LoadKey P W origin keyHandle pubKey = .ok k) :
    k.pubKey = ⟨pubKey, (P.Sum256 origin).toSlice⟩ ∧ k.KeyHandle = keyHandle := by
  unfold LoadKey at h
  obtain ⟨t, -, h⟩ := Outcome.bind_eq_ok _ _ _ h
  simp only [Outcome.pure_eq, Outcome.ok.injEq] at h
  rw [← h]
  exact ⟨rfl, rfl⟩

theorem GenerateKey_app {σ : Type} (P : Prims) (W : World σ) (fuel : Nat)
    (origin : List Byte) (k : U2fKey σ)
    (hgen : (GenerateKey P W fuel origin).result = .ok k) :
    k.pubKey.App = (P.Sum256 origin).toSlice := by
  obtain ⟨t0, res, calls, -, -, hb⟩ := GenerateKey_inv P W fuel origin k hgen
  unfold GenerateKey.build at hb
  obtain ⟨xs, -, hb⟩ := Outcome.bind_eq_ok _ _ _ hb
  obtain ⟨ys, -, hb⟩ := Outcome.bind_eq_ok _ _ _ hb
  obtain ⟨b, -, hb⟩ := Outcome.bind_eq_ok _ _ _ hb
  obtain ⟨kh, -, hb⟩ := Outcome.bind_eq_ok _ _ _ hb
  simp only [Outcome.pure_eq, Outcome.ok.injEq] at hb
  rw [← hb]

/-- C8: an adapter k' that `LoadKey` returns for the origin, key handle and EC public key
of an adapter k from `GenerateKey` has the key handle of k and a PublicKey equal to that
of k, whose application parameter is SHA256(origin); `Sign` on k' builds and issues the
requests of `Sign` on k, runs as on k from the same token state, and `Verify` returns
the same under both public keys. -/
theorem LoadKey_equivalent_to_GenerateKey {σ σ' : Type} (P : Prims) (W : World σ)
    (W' : World σ') (fuel : Nat) (origin : List Byte) (k : U2fKey σ) (k' : U2fKey σ')
    (hgen : (GenerateKey P W fuel origin).result = .ok k)
    (hload : LoadKey P W' origin k.KeyHandle k.pubKey.EcdsaKey = .ok k') :
    k'.KeyHandle = k.KeyHandle
      ∧ k'.Public = k.Public
      ∧ k.Public.App = (P.Sum256 origin).toSlice
      ∧ (∀ digest, Sign.request k' digest = Sign.request k digest)
      ∧ (∀ (fuel' : Nat) (digest : Slice),
          ∀ c ∈ (Sign W' fuel' k' digest).calls, c = Sign.request k digest)
      ∧ (∀ {τ : Type} (V : World τ) (fuel' : Nat) (t : τ) (digest : Slice),
          Sign V fuel' ⟨k'.pubKey, k'.KeyHandle, t⟩ digest
            = Sign V fuel' ⟨k.pubKey, k.KeyHandle, t⟩ digest)
      ∧ (∀ digest rawAuth, Verify P k'.Public digest rawAuth
            = Verify P k.Public digest rawAuth) := by
  obtain ⟨hp, hh⟩ := LoadKey_eq P W' origin _ _ k' hload
  have happ := GenerateKey_app P W fuel origin k hgen
  have hpub : k'.pubKey = k.pubKey := by
    rw [hp, ← happ]
  have hreq : ∀ digest, Sign.request k' digest = Sign.request k digest := by
    intro digest
    simp only [Sign.request, hpub, hh]
  refine ⟨hh, hpub, happ, hreq, ?_, ?_, ?_⟩
  · intro fuel' digest c hc
    rw [← hreq]
    exact Sign_calls W' fuel' k' digest c hc
  · intro τ V fuel' t digest
    rw [hpub, hh]
  · intro digest rawAuth
    simp only [U2fKey.Public, hpub]

/-- The theorem `LoadKey_equivalent_to_GenerateKey` at the token `toyWorld`. -/
theorem LoadKey_equivalent_to_GenerateKey_witness :
    ∃ k k' : U2fKey Nat, (GenerateKey stdPrims toyWorld 1 exampleOrigin).result = .ok k
      ∧ LoadKey stdPrims toyWorld exampleOrigin k.KeyHandle k.pubKey.EcdsaKey = .ok k'
      ∧ k'.KeyHandle = k.KeyHandle ∧ k'.Public = k.Public
      ∧ k.Public.App = (stdPrims.Sum256 exampleOrigin).toSlice :=
  ⟨_, _, rfl, rfl,
    (LoadKey_equivalent_to_GenerateKey stdPrims toyWorld toyWorld 1 exampleOrigin _ _ rfl
      rfl).1,
    (LoadKey_equivalent_to_GenerateKey stdPrims toyWorld toyWorld 1 exampleOrigin _ _ rfl
      rfl).2.1,
    (LoadKey_equivalent_to_GenerateKey stdPrims toyWorld toyWorld 1 exampleOrigin _ _ rfl
      rfl).2.2.1⟩

/-! ## Sign, then Verify -/

theorem Sign.loop_ok_of_contract {σ : Type} (P : Prims) (W : World σ)
    (keyOf : σ → List Byte → List Byte → Option EcdsaPublicKey)
    (hc : TokenContract P W keyOf) (req : AuthenticateRequest) (q : EcdsaPublicKey)
    (fuel : Nat) :
    ∀ (t : σ) (calls : List AuthenticateRequest) (sig : Slice),
      keyOf t req.KeyHandle.elems req.Application.elems = some q →
      (Sign.loop W req fuel t calls).result = .ok sig →
      ∃ (t' t1 : σ) (res : AuthenticateResponse), W.Authenticate t' req = (.ok res, t1)
        ∧ res.RawResponse = sig
        ∧ keyOf t' req.KeyHandle.elems req.Application.elems = some q := by
  induction fuel with
  | zero => intro t calls sig _ h; simp [Sign.loop] at h
  | succ fuel ih =>
    intro t calls sig hk h
    rcases hr : W.Authenticate t req with ⟨x, t1⟩
    cases x with
    | ok res =>
      simp only [Sign.loop, hr, Outcome.ok.injEq] at h
      exact ⟨t, t1, res, hr, h, hk⟩
    | error err =>
      by_cases he : err = GoError.presenceRequired
      · simp only [Sign.loop, hr, he, if_true] at h
        exact ih t1 _ sig (hc.authenticate_keeps t t1 req _ _ _ q hr hk) h
      · simp [Sign.loop, hr, he] at h

/-- C2: for a token that answers as `TokenContract` says (a 5-byte presence and counter
block followed by a DER ECDSA signature, made with the registered key, over
SHA256(application ++ block ++ challenge)), every origin and every digest of 32 bytes:
when `GenerateKey` returns the adapter k and `Sign` on k and the digest returns the bytes
sig, `Verify` on the public key of k, the digest and sig returns true. -/
theorem Sign_then_Verify {σ : Type} (P : Prims) (W : World σ)
    (keyOf : σ → List Byte → List Byte → Option EcdsaPublicKey)
    (hc : TokenContract P W keyOf) (fuel fuel' : Nat) (origin : List Byte) (digest : Slice)
    (k : U2fKey σ) (sig : Slice) (hd : digest.len = 32)
    (hgen : (GenerateKey P W fuel origin).result = .ok k)
    (hsign : (Sign W fuel' k digest).result = .ok sig) :
    Verify P k.Public digest sig = .ok true := by
  obtain ⟨t0, res, calls, -, hloop, hb⟩ := GenerateKey_inv P W fuel origin k hgen
  obtain ⟨t, hreg⟩ := GenerateKey.loop_ok W _ fuel t0 [] res k.token calls hloop
  obtain ⟨L, h66, hlen, hkey⟩ := hc.register_ok t k.token _ res hreg
  rw [GenerateKey.build_of_le_len (P.Sum256 origin) res k.token L
    (Slice.index_eq_ok res 66 L h66) hlen] at hb
  injection hb with hb
  have hkey' : keyOf k.token (Sign.request k digest).KeyHandle.elems
      (Sign.request k digest).Application.elems = some k.pubKey.EcdsaKey := by
    rw [← hb]
    simpa only [bytesAt, Nat.add_sub_cancel_left, Sign.request] using hkey
  obtain ⟨t', t1, resp, hauth, hraw, hk'⟩ :=
    Sign.loop_ok_of_contract P W keyOf hc (Sign.request k digest) k.pubKey.EcdsaKey fuel'
      k.token [] sig hkey' hsign
  have happ : (Sign.request k digest).Application.len = 32 := by
    rw [← hb]
    exact (P.Sum256 origin).property
  obtain ⟨h5, R, S, hder, hv⟩ := hc.authenticate_ok t' t1 _ resp _ hauth hk' hd happ
  rw [hraw] at h5 hder hv
  rw [U2fKey.Public, Verify_of_le_len P k.pubKey digest sig h5, hder]
  simp only [Sign.request] at hv
  simp only [hv]

theorem toyWorld_contract : TokenContract toyPrims toyWorld toyKeyOf := by
  refine ⟨?_, ?_, ?_⟩
  · intro t t1 req res h
    simp only [toyWorld, Prod.mk.injEq, Except.ok.injEq] at h
    rw [← h.1]
    have hh : bytesAt offCurveResponse 67 (67 + (2 : Byte).val) = [0xaa, 0xbb] := by decide
    have hx : SetBytes (bytesAt offCurveResponse 2 34) = 1 := by decide
    have hy : SetBytes (bytesAt offCurveResponse 34 66) = 1 := by decide
    refine ⟨2, by decide, by decide, ?_⟩
    rw [hh, hx, hy]
    rfl
  · intro t t1 req r h a q _ hk
    exact hk
  · intro t t1 req res q h hk _ _
    simp only [toyWorld, Prod.mk.injEq] at h
    by_cases ht : t % 2 = 1
    · simp only [ht, if_true] at h
      exact absurd h.1 (by intro e; cases e)
    · simp only [ht, if_false, Except.ok.injEq] at h
      rw [← h.1]
      simp only [toyKeyOf] at hk
      split at hk
      · injection hk with hk
        rw [← hk]
        refine ⟨?_, 1, SetBytes (toyHash (req.Application.elems
          ++ [0x01, 0x00, 0x00, 0x00, 0x00] ++ req.Challenge.elems)).val, rfl, ?_⟩
        · simp only [toySignature, Slice.ofList, Slice.len, List.length_append,
            List.length_cons, List.length_nil]
          omega
        · have ht5 : (toySignature req).elems.take 5 = [0x01, 0x00, 0x00, 0x00, 0x00] := rfl
          rw [ht5]
          simp only [toyPrims, and_self, decide_True]
      · cases hk

/-- The theorem `Sign_then_Verify` at the token `toyWorld`, the origin "example.com" and
the digest of "Hello, World!": `Sign` is asked for presence once. -/
theorem Sign_then_Verify_witness :
    TokenContract toyPrims toyWorld toyKeyOf ∧ (Slice.ofList helloDigest).len = 32
      ∧ ∃ k sig, (GenerateKey toyPrims toyWorld 1 exampleOrigin).result = .ok k
          ∧ (Sign toyWorld 2 k (Slice.ofList helloDigest)).result = .ok sig
          ∧ (Sign toyWorld 2 k (Slice.ofList helloDigest)).calls.length = 2
          ∧ Verify toyPrims k.Public (Slice.ofList helloDigest) sig = .ok true :=
  ⟨toyWorld_contract, by decide,
   ⟨⟨⟨P256, 1, 1⟩, (toyHash exampleOrigin).toSlice⟩, ⟨[0xaa, 0xbb], [0x30, 0x82, 0x01]⟩, 1⟩,
   toySignature ⟨Slice.ofList helloDigest, (toyHash exampleOrigin).toSlice,
     ⟨[0xaa, 0xbb], [0x30, 0x82, 0x01]⟩⟩,
   by decide, by decide, by decide,
   Sign_then_Verify toyPrims toyWorld toyKeyOf toyWorld_contract 1 2 exampleOrigin
     (Slice.ofList helloDigest) _ _ (by decide) (by decide) (by decide)⟩

/-! ## Verify and the digest -/

/-- The signature (r, s) of RFC 6979, appendix A.2.5, for SHA-256 and the message
"sample" is accepted for that message and rejected for the message "test". -/
theorem ECDSA.Verify_rfc6979 :
    ECDSA.Verify rfcKey (SHA256.Sum256 rfcSample).val
        0xefd48b2aacb6a8fd1140dd9cd45e81d69d2c877b56aaf991c34d0ea84eaf3716
        0xf7cb1c942d657c41d436c7a1b6e29f65f3e900dbb9aff4064dc4ab2f843acda8 = true
      ∧ ECDSA.Verify rfcKey (SHA256.Sum256 rfcTest).val
        0xefd48b2aacb6a8fd1140dd9cd45e81d69d2c877b56aaf991c34d0ea84eaf3716
        0xf7cb1c942d657c41d436c7a1b6e29f65f3e900dbb9aff4064dc4ab2f843acda8 = false := by
  decide!

theorem Verify_twinKey_hello :
    Verify stdPrims twinKey (Slice.ofList helloDigest) twinRawAuth = .ok true := by
  decide!

theorem Verify_twinKey_goodbye :
    Verify stdPrims twinKey (Slice.ofList goodbyeDigest) twinRawAuth = .ok true := by
  decide!

/-- C7 (as stated, refuted): under the key `twinKey`, whose point lies on P-256, the
response `twinRawAuth` verifies for the digest of "Hello, World!" and also for the
digest of "Goodbye, World!", both of 32 bytes. -/
theorem Verify_accepts_two_digests :
    EC.IsOnCurve P256 twinKey.EcdsaKey.X twinKey.EcdsaKey.Y = true
      ∧ twinKey.App.len = 32
      ∧ (Slice.ofList helloDigest).len = 32 ∧ (Slice.ofList goodbyeDigest).len = 32
      ∧ (Slice.ofList goodbyeDigest) ≠ (Slice.ofList helloDigest)
      ∧ Verify stdPrims twinKey (Slice.ofList helloDigest) twinRawAuth = .ok true
      ∧ Verify stdPrims twinKey (Slice.ofList goodbyeDigest) twinRawAuth = .ok true
      ∧ Verify stdPrims twinKey (Slice.ofList goodbyeDigest) twinRawAuth ≠ .ok false :=
  ⟨by decide!, by decide, by decide, by decide, by decide, Verify_twinKey_hello,
   Verify_twinKey_goodbye, by rw [Verify_twinKey_goodbye]; decide⟩

/-- C7 (amended): when `Verify` returns true for a digest d and d' is another digest (of
any length, so also when both have 32 bytes), the response decodes to a signature (R, S),
the payload hashed for d' differs from the payload hashed for d, and `Verify` returns for
d' the verdict of ECDSA on (R, S) and the SHA-256 digest of that other payload: false
exactly when ECDSA rejects it. -/
theorem Verify_other_digest (P : Prims) (pub : PublicKey) (d d' rawAuth : Slice)
    (hne : d'.elems ≠ d.elems)
    (hv : Verify P pub d rawAuth = .ok true) :
    ∃ R S, 5 ≤ rawAuth.len ∧ P.Unmarshal (rawAuth.elems.drop 5) = .ok (R, S)
      ∧ Verify.payload pub d rawAuth
          = .ok (pub.App.elems ++ rawAuth.elems.take 5 ++ d.elems)
      ∧ Verify.payload pub d' rawAuth
          = .ok (pub.App.elems ++ rawAuth.elems.take 5 ++ d'.elems)
      ∧ pub.App.elems ++ rawAuth.elems.take 5 ++ d'.elems
          ≠ pub.App.elems ++ rawAuth.elems.take 5 ++ d.elems
      ∧ Verify P pub d' rawAuth
          = .ok (P.EcdsaVerify pub.EcdsaKey
              (P.Sum256 (pub.App.elems ++ rawAuth.elems.take 5 ++ d'.elems)).val R S)
      ∧ (Verify P pub d' rawAuth = .ok false ↔
          P.EcdsaVerify pub.EcdsaKey
              (P.Sum256 (pub.App.elems ++ rawAuth.elems.take 5 ++ d'.elems)).val R S
            = false) := by
  have h5 : 5 ≤ rawAuth.len := by
    by_contra hc
    rw [Verify_of_short P pub d rawAuth (by omega)] at hv
    cases hv
  rw [Verify_of_le_len P pub d rawAuth h5] at hv
  cases hder : P.Unmarshal (rawAuth.elems.drop 5) with
  | error e =>
    rw [hder] at hv
    injection hv with hv
    cases hv
  | ok rs =>
    obtain ⟨R, S⟩ := rs
    have hv' : Verify P pub d' rawAuth
        = .ok (P.EcdsaVerify pub.EcdsaKey
            (P.Sum256 (pub.App.elems ++ rawAuth.elems.take 5 ++ d'.elems)).val R S) := by
      rw [Verify_of_le_len P pub d' rawAuth h5, hder]
    refine ⟨R, S, h5, rfl, Verify.payload_of_le_len pub d rawAuth h5,
      Verify.payload_of_le_len pub d' rawAuth h5, ?_, hv', ?_⟩
    · intro h
      exact hne (List.append_cancel_left h)
    · rw [hv']
      constructor
      · intro h
        injection h
      · intro h
        rw [h]

/-- The theorem `Verify_other_digest` at the key `twinKey` and the two digests of the
tests. -/
theorem Verify_other_digest_witness :
    (Slice.ofList helloDigest).len = 32 ∧ (Slice.ofList goodbyeDigest).len = 32
      ∧ (Slice.ofList goodbyeDigest).elems ≠ (Slice.ofList helloDigest).elems
      ∧ Verify stdPrims twinKey (Slice.ofList helloDigest) twinRawAuth = .ok true
      ∧ ∃ R S, stdPrims.Unmarshal (twinRawAuth.elems.drop 5) = .ok (R, S)
          ∧ Verify stdPrims twinKey (Slice.ofList goodbyeDigest) twinRawAuth
              = .ok (stdPrims.EcdsaVerify twinKey.EcdsaKey
                  (stdPrims.Sum256 (twinKey.App.elems ++ twinRawAuth.elems.take 5
                    ++ (Slice.ofList goodbyeDigest).elems)).val R S) := by
  obtain ⟨R, S, -, h2, -, -, -, h6, -⟩ :=
    Verify_other_digest stdPrims twinKey (Slice.ofList helloDigest)
      (Slice.ofList goodbyeDigest) twinRawAuth (by decide) Verify_twinKey_hello
  exact ⟨by decide, by decide, by decide, Verify_twinKey_hello, R, S, h2, h6⟩

end u2fkey
